import Mathlib

/-!
# vectorcontrol: the parameter store of `src/configuration.cpp`

A shallow embedding of `configuration.cpp` (the table `flash_params`, the
constructor, the group readers, the name search, the getters, the setters and
`write_params`), followed by theorems about it.

Conventions of the embedding

* `float` is IEEE-754 binary32, kept as its three bit fields. The table, the
  getters and the setters only store, copy and compare floats, so what is embedded
  of `float` is the comparison operators and the conversion of decimal literals.
* The arithmetic of `read_motor_params` is exact arithmetic, without rounding, on
  the values of the floats in a field `K` (the rationals to compute, the reals to
  reason); the constant `M_PI` is a parameter of the reader.
* A cast of a float to an unsigned integer type discards the fractional part and is
  undefined, `none`, when the integral part does not fit the type.
  `read_motor_params`, whose cast feeds its arithmetic, returns an `Option`;
  `read_pwm_params` returns a struct in which each field filled in from a cast is an
  `Option` of its own, so that an undefined cast leaves the other fields assigned.
* `uint8_t`, `uint16_t`, `uint32_t` and `size_t` are `Nat`; a cast to `uint8_t` of an
  integer is written `% 256`.
* `char name[27]` is a list of exactly 27 bytes. A `const char*` argument is the
  list of bytes found at the pointer, followed by the terminating NUL: the byte at
  offset `i` is `name.getD i 0`.
* A member function that is not `const` returns the store it leaves behind.
* The storage collaborator of `hal.h` is a parameter of `write_params`: a triple of
  primitives on a state of its own.
-/

namespace VectorControl

/-! ## IEEE-754 binary32 -/

/-- The C type `float`: sign bit, 8 exponent bits, 23 fraction bits. -/
structure float where
  sign : Bool
  exponent : Fin 256
  fraction : Fin 8388608
deriving DecidableEq, Repr

namespace float

/-- A NaN has all exponent bits set and a non-zero fraction. -/
def isNaN (x : float) : Bool :=
  decide (x.exponent.val = 255) && decide (x.fraction.val ≠ 0)

/-- The exponent and fraction bits read as one unsigned number. -/
def magnitude (x : float) : Nat :=
  x.exponent.val * 8388608 + x.fraction.val

/-- Sign-magnitude reading of the bits. On floats that are not NaN it is monotone in
the value, and both zeros are sent to `0`. -/
def key (x : float) : Int :=
  if x.sign then -(x.magnitude : Int) else (x.magnitude : Int)

/-- The C operator `a <= b` on floats: false as soon as one side is a NaN. -/
def le (a b : float) : Bool :=
  !a.isNaN && !b.isNaN && decide (a.key ≤ b.key)

/-- The C operator `a < b` on floats: false as soon as one side is a NaN. -/
def lt (a b : float) : Bool :=
  !a.isNaN && !b.isNaN && decide (a.key < b.key)

/-- The C operator `a > b` on floats. -/
def gt (a b : float) : Bool :=
  lt b a

/-- Quotient `n / d` rounded to the nearest integer, ties to even. -/
def roundNearestEven (n d : Nat) : Nat :=
  let q := n / d
  let r := n % d
  if 2 * r < d then q
  else if d < 2 * r then q + 1
  else if q % 2 = 0 then q else q + 1

/-- Biased exponent of `p / q`: the largest `b ≤ 255` with `2^(b-127) ≤ p / q`
(and `0` when there is none), found bit by bit from the top. -/
def biasedExponent (p q : Nat) : Nat :=
  [128, 64, 32, 16, 8, 4, 2, 1].foldl
    (fun b s => if q * 2 ^ (b + s) ≤ p * 2 ^ 127 then b + s else b) 0

/-- The 31 low bits of the binary32 nearest to `p / q` (round to nearest, ties to
even; subnormal below `2^-126`, infinity from `2^128` on). -/
def bitsOfRatio (p q : Nat) : Nat :=
  if p = 0 ∨ q = 0 then 0
  else
    -- subnormals share the scale of the biased exponent 1
    let b := max 1 (biasedExponent p q)
    let m := roundNearestEven (p * 2 ^ 150) (q * 2 ^ b)
    min ((b - 1) * 8388608 + m) (255 * 8388608)

/-- The float with the given sign whose absolute value is `p / q` rounded. -/
def ofRatio (neg : Bool) (p q : Nat) : float :=
  { sign := neg
    exponent := Fin.ofNat (bitsOfRatio p q / 8388608)
    fraction := Fin.ofNat (bitsOfRatio p q % 8388608) }

/-- A decimal literal of the source: `lit m k` is `m * 10^(-k)` written with the
suffix `f`, so `60e-3f` is `lit 60 3`, `7.4f` is `lit 74 1` and `-1.0f` is `lit (-10) 1`. -/
def lit (m : Int) (k : Nat) : float :=
  ofRatio (decide (m < 0)) m.natAbs (10 ^ k)

end float

/-! ## The parameter record and the table in flash -/

/-- Modelled from the spec: the enumeration of parameter indices is declared in
`configuration.h`, which is not part of the sources at hand. The spec says that the
indices are assigned at build time, dense and without gaps (`0..N-1`), so the
enumerators are numbered from 0 in the order in which `flash_params` lists them. -/
abbrev PARAM_MOTOR_NUM_POLES : Nat := 0
abbrev PARAM_MOTOR_CURRENT_LIMIT : Nat := 1
abbrev PARAM_MOTOR_VOLTAGE_LIMIT : Nat := 2
abbrev PARAM_MOTOR_RPM_MAX : Nat := 3
abbrev PARAM_MOTOR_RS : Nat := 4
abbrev PARAM_MOTOR_LS : Nat := 5
abbrev PARAM_MOTOR_KV : Nat := 6
abbrev PARAM_CONTROL_ACCEL_TORQUE_MAX : Nat := 7
abbrev PARAM_CONTROL_LOAD_TORQUE : Nat := 8
abbrev PARAM_CONTROL_ACCEL_GAIN : Nat := 9
abbrev PARAM_CONTROL_ACCEL_TIME : Nat := 10
abbrev PARAM_UAVCAN_ESCSTATUS_INTERVAL : Nat := 11
abbrev PARAM_UAVCAN_NODE_ID : Nat := 12
abbrev PARAM_UAVCAN_ESC_INDEX : Nat := 13
abbrev PARAM_PWM_CONTROL_MODE : Nat := 14
abbrev PARAM_PWM_THROTTLE_MIN : Nat := 15
abbrev PARAM_PWM_THROTTLE_MAX : Nat := 16
abbrev PARAM_PWM_THROTTLE_DEADBAND : Nat := 17
abbrev PARAM_PWM_CONTROL_OFFSET : Nat := 18
abbrev PARAM_PWM_CONTROL_CURVE : Nat := 19
abbrev PARAM_PWM_CONTROL_MIN : Nat := 20
abbrev PARAM_PWM_CONTROL_MAX : Nat := 21

/-- Modelled from the spec: the last enumerator of `configuration.h`, the fixed
count `N` of records; `flash_params` has 22 initialisers. -/
abbrev NUM_PARAMS : Nat := 22

/-- Modelled from the spec: `struct param_t` is declared in `configuration.h`. Its
fields are the ones the initialisers of `flash_params` fill in, in the order given
by the comment heading that table (index, name, current value, default value, min
value, max value); the name is a `char[27]`, the bound `_get_param_name_len` uses. -/
structure param_t where
  index : Nat
  name : List Nat
  value : float
  default_value : float
  min_value : float
  max_value : float
  name_size : name.length = 27
deriving DecidableEq

/-- A string literal used to initialise a `char[27]`: the bytes of the literal,
then NUL up to the size of the array. -/
def chars27 (s : String) : List Nat :=
  ((s.toList.map Char.toNat) ++ List.replicate 27 0).take 27

/-- One initialiser `{index, "name", value, default, min, max}` of `flash_params`. -/
def param_t.init (index : Nat) (s : String) (value default_value min_value max_value : float) :
    param_t :=
  { index := index, name := chars27 s, value := value, default_value := default_value,
    min_value := min_value, max_value := max_value, name_size := by simp [chars27] }

/-- The table `flash_params` as the image is built: the initialisers of the source,
in order. -/
def flash_params : List param_t :=
  [ param_t.init PARAM_MOTOR_NUM_POLES "motor_num_poles"
      (float.lit 140 1) (float.lit 140 1) (float.lit 40 1) (float.lit 400 1),
    param_t.init PARAM_MOTOR_CURRENT_LIMIT "motor_current_limit"
      (float.lit 10 1) (float.lit 100 1) (float.lit 10 1) (float.lit 400 1),
    param_t.init PARAM_MOTOR_VOLTAGE_LIMIT "motor_voltage_limit"
      (float.lit 20 1) (float.lit 74 1) (float.lit 5 1) (float.lit 270 1),
    param_t.init PARAM_MOTOR_RPM_MAX "motor_rpm_max"
      (float.lit 200000 1) (float.lit 200000 1) (float.lit 5000 1) (float.lit 400000 1),
    param_t.init PARAM_MOTOR_RS "motor_rs"
      (float.lit 60 3) (float.lit 60 3) (float.lit 1 3) (float.lit 1000 3),
    param_t.init PARAM_MOTOR_LS "motor_ls"
      (float.lit 20 6) (float.lit 20 6) (float.lit 1 6) (float.lit 1000 6),
    param_t.init PARAM_MOTOR_KV "motor_kv"
      (float.lit 8500 1) (float.lit 8500 1) (float.lit 1000 1) (float.lit 50000 1),
    param_t.init PARAM_CONTROL_ACCEL_TORQUE_MAX "control_accel_torque_max"
      (float.lit 20 1) (float.lit 20 1) (float.lit 1 1) (float.lit 400 1),
    param_t.init PARAM_CONTROL_LOAD_TORQUE "control_load_torque"
      (float.lit 100 1) (float.lit 100 1) (float.lit 10 1) (float.lit 400 1),
    param_t.init PARAM_CONTROL_ACCEL_GAIN "control_accel_gain"
      (float.lit 1 1) (float.lit 1 1) (float.lit 0 1) (float.lit 10 1),
    param_t.init PARAM_CONTROL_ACCEL_TIME "control_accel_time"
      (float.lit 1 1) (float.lit 1 1) (float.lit 1 2) (float.lit 10 1),
    param_t.init PARAM_UAVCAN_ESCSTATUS_INTERVAL "uavcan_escstatus_interval"
      (float.lit 100 3) (float.lit 100 3) (float.lit 1 3) (float.lit 1000 3),
    param_t.init PARAM_UAVCAN_NODE_ID "uavcan_node_id"
      (float.lit 10 1) (float.lit 0 1) (float.lit 0 1) (float.lit 1250 1),
    param_t.init PARAM_UAVCAN_ESC_INDEX "uavcan_esc_index"
      (float.lit 0 1) (float.lit 0 1) (float.lit 0 1) (float.lit 150 1),
    param_t.init PARAM_PWM_CONTROL_MODE "pwm_control_mode"
      (float.lit 0 1) (float.lit 0 1) (float.lit 0 1) (float.lit 10 1),
    param_t.init PARAM_PWM_THROTTLE_MIN "pwm_throttle_min"
      (float.lit 11000 1) (float.lit 11000 1) (float.lit 10000 1) (float.lit 20000 1),
    param_t.init PARAM_PWM_THROTTLE_MAX "pwm_throttle_max"
      (float.lit 19000 1) (float.lit 19000 1) (float.lit 10000 1) (float.lit 20000 1),
    param_t.init PARAM_PWM_THROTTLE_DEADBAND "pwm_throttle_deadband"
      (float.lit 100 1) (float.lit 100 1) (float.lit 0 1) (float.lit 10000 1),
    param_t.init PARAM_PWM_CONTROL_OFFSET "pwm_control_offset"
      (float.lit 0 1) (float.lit 0 1) (float.lit (-10) 1) (float.lit 10 1),
    param_t.init PARAM_PWM_CONTROL_CURVE "pwm_control_curve"
      (float.lit 10 1) (float.lit 10 1) (float.lit 5 1) (float.lit 20 1),
    param_t.init PARAM_PWM_CONTROL_MIN "pwm_control_min"
      (float.lit 0 1) (float.lit 0 1) (float.lit (-400000) 1) (float.lit 400000 1),
    param_t.init PARAM_PWM_CONTROL_MAX "pwm_control_max"
      (float.lit 0 1) (float.lit 0 1) (float.lit (-400000) 1) (float.lit 400000 1) ]

/-! ## The store and its operations -/

/-- The class `Configuration`: its only data member is `params_`, an array of
`NUM_PARAMS` records. -/
structure Configuration where
  params_ : List param_t
  size_ok : params_.length = NUM_PARAMS
deriving DecidableEq

/-- The constructor `Configuration::Configuration`:
`memcpy(params_, flash_params, sizeof(params_))`, from the current content of the
table in flash. -/
def Configuration.new (flash : List param_t) (h : flash.length = NUM_PARAMS) :
    Configuration :=
  { params_ := flash, size_ok := h }

/-- A store constructed from the table of the image as built. -/
def Configuration.fresh : Configuration :=
  Configuration.new flash_params rfl

/-- The loop `for (i = start; i < start + n; i++) { if (p i) return i; }`: the first
index at which the body returns, if there is one. -/
def first_index (p : Nat → Bool) : Nat → Nat → Option Nat
  | 0, _ => none
  | n + 1, i => if p i then some i else first_index p n (i + 1)

/-- The byte at offset `i` of a buffer; a `const char*` argument is followed by its
terminating NUL, and a `char[27]` is never read past its end. -/
def byte_at (s : List Nat) (i : Nat) : Nat :=
  s.getD i 0

/-- The function `_get_param_name_len`: one more than the offset of the first NUL among the first
27 bytes, and 0 when there is none. -/
def _get_param_name_len (name : List Nat) : Nat :=
  match first_index (fun i => byte_at name i == 0) 27 0 with
  | some i => i + 1
  | none => 0

/-- The library function `memcmp(s1, s2, n)`: 0 when the first `n` bytes agree, otherwise the difference
of the first two bytes that differ. -/
def memcmp (s1 s2 : List Nat) : Nat → Int
  | 0 => 0
  | n + 1 =>
    if s1.headD 0 = s2.headD 0 then memcmp s1.tail s2.tail n
    else (s1.headD 0 : Int) - (s2.headD 0 : Int)

/-- The function `_find_param_index_by_name`: the position of the first record whose name agrees
with `name` on `name_len` bytes, and `num_params` when the name is empty, too long,
or matched by no record. -/
def _find_param_index_by_name (name : List Nat) (params : List param_t) (num_params : Nat) :
    Nat :=
  let name_len := _get_param_name_len name
  if name_len ≤ 1 then num_params
  else
    match first_index
        (fun i => match params[i]? with
          | some p => memcmp p.name name name_len == 0
          | none => false) num_params 0 with
    | some i => i
    | none => num_params

/-- The method `Configuration::get_param_by_index`: returns the result, the record left in
`out_param`, and the store. -/
def Configuration.get_param_by_index (c : Configuration) (out_param : param_t) (index : Nat) :
    Bool × param_t × Configuration :=
  if h : index ≥ NUM_PARAMS then (false, out_param, c)
  else
    have hlt : index < c.params_.length := by rw [c.size_ok]; omega
    (true, c.params_[index], c)

/-- The method `Configuration::get_param_by_name`. -/
def Configuration.get_param_by_name (c : Configuration) (out_param : param_t)
    (name : List Nat) : Bool × param_t × Configuration :=
  let idx := _find_param_index_by_name name c.params_ NUM_PARAMS
  c.get_param_by_index out_param (idx % 256)

/-- The assignment `params_[index].value = value`. -/
def Configuration.assign_value (c : Configuration) (index : Nat) (value : float) :
    Configuration :=
  { params_ := c.params_.modify (fun p => { p with value := value }) index
    size_ok := by rw [List.length_modify]; exact c.size_ok }

/-- The method `Configuration::set_param_value_by_index`: returns the result and the store. -/
def Configuration.set_param_value_by_index (c : Configuration) (index : Nat) (value : float) :
    Bool × Configuration :=
  if h : index ≥ NUM_PARAMS then (false, c)
  else
    have hlt : index < c.params_.length := by rw [c.size_ok]; omega
    if float.le c.params_[index].min_value value && float.le value c.params_[index].max_value
    then (true, c.assign_value index value)
    else (false, c)

/-- The method `Configuration::set_param_value_by_name`. -/
def Configuration.set_param_value_by_name (c : Configuration) (name : List Nat)
    (value : float) : Bool × Configuration :=
  let idx := _find_param_index_by_name name c.params_ NUM_PARAMS
  c.set_param_value_by_index (idx % 256) value

/-- The bytes of a string literal passed as a `const char*`. -/
def cstr (s : String) : List Nat :=
  s.toList.map Char.toNat

/-- One call of a setter, as a client of the store can issue it. -/
inductive set_call where
  | by_index (index : Nat) (value : float)
  | by_name (name : List Nat) (value : float)

/-- The store left behind by one setter call (the boolean result is dropped). -/
def Configuration.apply_call (c : Configuration) : set_call → Configuration
  | .by_index index value => (c.set_param_value_by_index index value).2
  | .by_name name value => (c.set_param_value_by_name name value).2

/-- The store left behind by a finite sequence of setter calls, in order. -/
def Configuration.run (c : Configuration) (calls : List set_call) : Configuration :=
  calls.foldl Configuration.apply_call c

/-- The bounds invariant of one record: `min_value <= value && value <= max_value`,
with the comparisons of the source. -/
def param_t.in_bounds (p : param_t) : Bool :=
  float.le p.min_value p.value && float.le p.value p.max_value

/-- The columns a setter never writes. -/
def param_t.fixed_part (p : param_t) : Nat × List Nat × float × float × float :=
  (p.index, p.name, p.default_value, p.min_value, p.max_value)

/-- The C string at a pointer: the bytes before the first NUL. -/
def c_string (s : List Nat) : List Nat :=
  s.takeWhile (fun b => b != 0)

/-- The name search as the spec words it: exact, case-sensitive equality of strings,
an empty name or one of more than 26 characters matching nothing, the first match
winning. -/
def find_by_string (name : List Nat) (params : List param_t) (num_params : Nat) : Nat :=
  if (c_string name).length = 0 ∨ 27 ≤ (c_string name).length then num_params
  else
    match first_index
        (fun i => match params[i]? with
          | some p => decide (c_string p.name = c_string name)
          | none => false) num_params 0 with
    | some i => i
    | none => num_params

/-! ## The group readers -/

/-- The absolute value of a finite float, times `2^150`: a natural number, because
the least positive float is `2^-149`. -/
def float.numerator150 (x : float) : Nat :=
  if x.exponent.val = 0 then x.fraction.val * 2
  else (8388608 + x.fraction.val) * 2 ^ x.exponent.val

/-- Neither an infinity nor a NaN. -/
def float.isFinite (x : float) : Bool :=
  decide (x.exponent.val < 255)

/-- The value of a finite float, in any field. The readers compute on these values
without rounding. -/
def float.toField {K : Type} [Field K] (x : float) : K :=
  (if x.sign then -(x.numerator150 : K) else (x.numerator150 : K)) / 2 ^ 150

/-- The integral part of the absolute value of a finite float. -/
def float.trunc (x : float) : Nat :=
  x.numerator150 / 2 ^ 150

/-- The cast `(uintN_t)x` of a float: the fractional part is discarded, and the
behaviour is undefined (`none`) for a NaN, an infinity, and an integral part that
the unsigned type of `width` bits cannot hold. -/
def float.to_uint (width : Nat) (x : float) : Option Nat :=
  if x.isFinite && (!x.sign || x.trunc == 0) && decide (x.trunc < 2 ^ width)
  then some x.trunc else none

/-- Modelled from the spec: `struct motor_params_t` is declared in `configuration.h`;
its fields are the ones `read_motor_params` assigns. The two fields the reader
computes hold exact values in a field `K`; the fields it copies hold the floats. -/
structure motor_params_t (K : Type) where
  num_poles : Nat
  max_current_a : float
  max_voltage_v : float
  max_speed_rad_per_s : K
  rs_r : float
  ls_h : float
  phi_v_s_per_rad : K

/-- Modelled from the spec: `struct control_params_t` is declared in
`configuration.h`; its fields are the ones `read_control_params` assigns. -/
structure control_params_t where
  bandwidth_hz : float
  max_accel_torque_a : float
  load_torque_a : float
  accel_gain : float
  accel_time_s : float
deriving DecidableEq

/-- Modelled from the spec: the control-curve enumeration nested in
`struct pwm_params_t`, with the three enumerators the source names. -/
inductive control_curve_t where
  | SQRT
  | LINEAR
  | QUADRATIC
deriving DecidableEq, Repr

/-- Modelled from the spec: `struct pwm_params_t` is declared in `configuration.h`;
its fields are the ones `read_pwm_params` assigns. A field that the reader fills in
from the cast of a float to an unsigned integer holds `none` when that cast is
undefined; the other fields do not depend on it. -/
structure pwm_params_t where
  use_speed_controller : Bool
  throttle_pulse_min_us : Option Nat
  throttle_pulse_max_us : Option Nat
  throttle_deadband_us : Option Nat
  control_offset : float
  control_min : float
  control_max : float
  control_curve : Option control_curve_t
deriving DecidableEq

/-- The record `params_[index]` for an index below `NUM_PARAMS`. -/
def Configuration.param (c : Configuration) (index : Nat) (h : index < NUM_PARAMS) : param_t :=
  c.params_.get ⟨index, by rw [c.size_ok]; exact h⟩

/-- The function `_rad_per_s_from_rpm`:
`rpm * 60.0f / (2.0f * (float)M_PI * (float)(num_poles >> 1u))`, computed without
rounding in a field `K`; `M_PI` is the value taken for the constant of `<cmath>`. -/
def _rad_per_s_from_rpm {K : Type} [Field K] (M_PI : K) (rpm : K) (num_poles : Nat) : K :=
  rpm * (60 : K) / ((2 : K) * M_PI * (Nat.cast (num_poles >>> 1) : K))

/-- The method `Configuration::read_motor_params`: the struct it fills in and the
store, or `none` when the cast of the pole count is undefined. -/
def Configuration.read_motor_params {K : Type} [Field K] (M_PI : K) (c : Configuration) :
    Option (motor_params_t K × Configuration) :=
  match float.to_uint 32 (c.param PARAM_MOTOR_NUM_POLES (by decide)).value with
  | none => none
  | some num_poles =>
    some
      ({ num_poles := num_poles
         max_current_a := (c.param PARAM_MOTOR_CURRENT_LIMIT (by decide)).value
         max_voltage_v := (c.param PARAM_MOTOR_VOLTAGE_LIMIT (by decide)).value
         max_speed_rad_per_s :=
           _rad_per_s_from_rpm M_PI
             (float.toField (c.param PARAM_MOTOR_RPM_MAX (by decide)).value) num_poles
         rs_r := (c.param PARAM_MOTOR_RS (by decide)).value
         ls_h := (c.param PARAM_MOTOR_LS (by decide)).value
         phi_v_s_per_rad :=
           _rad_per_s_from_rpm M_PI
             (1 / float.toField (c.param PARAM_MOTOR_KV (by decide)).value) num_poles },
        c)

/-- The method `Configuration::read_control_params`. -/
def Configuration.read_control_params (c : Configuration) : control_params_t × Configuration :=
  ({ bandwidth_hz := float.lit 500 1
     max_accel_torque_a := (c.param PARAM_CONTROL_ACCEL_TORQUE_MAX (by decide)).value
     load_torque_a := (c.param PARAM_CONTROL_LOAD_TORQUE (by decide)).value
     accel_gain := (c.param PARAM_CONTROL_ACCEL_GAIN (by decide)).value
     accel_time_s := (c.param PARAM_CONTROL_ACCEL_TIME (by decide)).value },
    c)

/-- The `switch` of `read_pwm_params` on the integer code of the control curve, with
its `default` arm. -/
def control_curve_of_code : Nat → control_curve_t
  | 0 => control_curve_t.SQRT
  | 1 => control_curve_t.LINEAR
  | 2 => control_curve_t.QUADRATIC
  | _ => control_curve_t.LINEAR

/-- The method `Configuration::read_pwm_params`: the struct it fills in, assignment by
assignment, and the store. The flag and the three copied floats are always assigned;
each of the four cast fields is assigned the result of its own cast, and the
`switch` runs on the code that the cast of the curve gives. -/
def Configuration.read_pwm_params (c : Configuration) : pwm_params_t × Configuration :=
  ({ use_speed_controller :=
       float.gt (c.param PARAM_PWM_CONTROL_MODE (by decide)).value (float.lit 0 1)
     throttle_pulse_min_us :=
       float.to_uint 16 (c.param PARAM_PWM_THROTTLE_MIN (by decide)).value
     throttle_pulse_max_us :=
       float.to_uint 16 (c.param PARAM_PWM_THROTTLE_MAX (by decide)).value
     throttle_deadband_us :=
       float.to_uint 16 (c.param PARAM_PWM_THROTTLE_DEADBAND (by decide)).value
     control_offset := (c.param PARAM_PWM_CONTROL_OFFSET (by decide)).value
     control_min := (c.param PARAM_PWM_CONTROL_MIN (by decide)).value
     control_max := (c.param PARAM_PWM_CONTROL_MAX (by decide)).value
     control_curve :=
       (float.to_uint 8 (c.param PARAM_PWM_CONTROL_CURVE (by decide)).value).map
         control_curve_of_code },
    c)

/-- The conversion as the spec words it,
`rad_per_s = rpm · 60 / (2π · (num_poles/2))`, the pole count being halved in the
field and not in the integers. -/
def rad_per_s_reference {K : Type} [Field K] (M_PI : K) (rpm : K) (num_poles : Nat) : K :=
  rpm * (60 : K) / ((2 : K) * M_PI * ((Nat.cast num_poles : K) / (2 : K)))

/-! ## Persistence -/

/-- The 32 bits of a float, as an unsigned number. -/
def float.bits (x : float) : Nat :=
  (if x.sign then 2147483648 else 0) + x.magnitude

/-- The float with the given 32 bits. -/
def float.ofBits (w : Nat) : float :=
  { sign := decide (2147483648 ≤ w % 4294967296)
    exponent := Fin.ofNat (w / 8388608 % 256)
    fraction := Fin.ofNat (w % 8388608) }

/-- The four bytes of a float in memory, least significant first. -/
def float.bytes (x : float) : List Nat :=
  [x.bits % 256, x.bits / 256 % 256, x.bits / 65536 % 256, x.bits / 16777216 % 256]

/-- The float held by four bytes of memory. -/
def float.ofBytes (b : List Nat) : float :=
  float.ofBits (b.getD 0 0 + 256 * b.getD 1 0 + 65536 * b.getD 2 0 + 16777216 * b.getD 3 0)

/-- Modelled from the spec: `sizeof(struct param_t)`. The struct is declared in
`configuration.h`; the spec fixes only that the table is one contiguous blob whose
size is a multiple of 4. The layout taken here is the one of the target ABI: the
fields in order (one byte of index, 27 bytes of name, four floats of four bytes,
least significant byte first), without padding since the floats start at offset 28. -/
def sizeof_param_t : Nat := 44

/-- The bytes of one record in memory. -/
def param_t.bytes (p : param_t) : List Nat :=
  [p.index % 256] ++ p.name.map (fun b => b % 256) ++ p.value.bytes ++ p.default_value.bytes ++
    p.min_value.bytes ++ p.max_value.bytes

/-- The record held by `sizeof_param_t` bytes of memory. -/
def param_t.of_bytes (b : List Nat) : param_t :=
  { index := b.getD 0 0
    name := ((b.drop 1).take 27 ++ List.replicate 27 0).take 27
    value := float.ofBytes ((b.drop 28).take 4)
    default_value := float.ofBytes ((b.drop 32).take 4)
    min_value := float.ofBytes ((b.drop 36).take 4)
    max_value := float.ofBytes ((b.drop 40).take 4)
    name_size := by simp }

/-- The size `sizeof(params_)` of the table, in bytes. -/
def sizeof_params_ : Nat := NUM_PARAMS * sizeof_param_t

/-- The bytes of the array `params_` in memory. -/
def Configuration.bytes (c : Configuration) : List Nat :=
  (c.params_.map param_t.bytes).flatten

/-- The array of `num_params` records held by a run of bytes. -/
def params_of_bytes (num_params : Nat) (b : List Nat) : List param_t :=
  (List.range num_params).map
    (fun i => param_t.of_bytes ((b.drop (sizeof_param_t * i)).take sizeof_param_t))

/-- The address `(uint8_t*)flash_params`, as an offset into the section `.paramflash`
that the table is placed in. -/
def flash_params_addr : Nat := 0

/-- The constructor `Configuration::Configuration` on a flash region given by its
bytes: `memcpy(params_, flash_params, sizeof(params_))`. -/
def Configuration.load (mem : List Nat) : Configuration :=
  Configuration.new (params_of_bytes NUM_PARAMS ((mem.drop flash_params_addr).take sizeof_params_))
    (by simp [params_of_bytes])

/-- Modelled from the spec: the storage collaborator, whose three primitives are
declared in `hal.h`: `hal_flash_protect(enable)`, `hal_flash_erase(region, size)` and
`hal_flash_write(region, size, data)`, acting on a state `σ` of the collaborator. The
data pointer is passed as the bytes found at it. -/
structure hal_flash (σ : Type) where
  hal_flash_protect : Bool → σ → σ
  hal_flash_erase : Nat → Nat → σ → σ
  hal_flash_write : Nat → Nat → List Nat → σ → σ

/-- The method `Configuration::write_params`, against a storage collaborator: the
state the collaborator is left in, and the store. -/
def Configuration.write_params {σ : Type} (hal : hal_flash σ) (c : Configuration) (s : σ) :
    σ × Configuration :=
  let s1 := hal.hal_flash_protect false s
  let s2 := hal.hal_flash_erase flash_params_addr 2048 s1
  let s3 := hal.hal_flash_write flash_params_addr sizeof_params_ c.bytes s2
  let s4 := hal.hal_flash_protect true s3
  (s4, c)

/-- One call received by a storage collaborator that records its calls. -/
inductive hal_call where
  | protect (enable : Bool)
  | erase (region : Nat) (size : Nat)
  | write (region : Nat) (size : Nat) (data : List Nat)
deriving DecidableEq

/-- The simulated storage collaborator of the spec: it records every call, in
order, with the `size` bytes it is handed. -/
def recording_hal : hal_flash (List hal_call) :=
  { hal_flash_protect := fun enable trace => trace ++ [hal_call.protect enable]
    hal_flash_erase := fun region size trace => trace ++ [hal_call.erase region size]
    hal_flash_write := fun region size data trace =>
      trace ++ [hal_call.write region size (data.take size)] }

/-- Modelled from the spec: the state of the storage medium, the write protection
of the parameter region and the bytes of that region. -/
structure flash_t where
  protect : Bool
  mem : List Nat
deriving DecidableEq

/-- Modelled from the spec: the storage collaborator on `flash_t`. `protect` switches
the write protection; `erase` sets `size` bytes from `region` to the erased value
`0xFF`; `write` copies `size` bytes of `data` to `region`, which must already be
erased. A primitive called on a protected region, out of the region, or (for
`write`) on bytes that are not erased, leaves the medium as it is. -/
def flash_hal : hal_flash flash_t :=
  { hal_flash_protect := fun enable s => { s with protect := enable }
    hal_flash_erase := fun region size s =>
      if s.protect || decide (s.mem.length < region + size) then s
      else { s with mem := s.mem.take region ++ List.replicate size 255 ++
                            s.mem.drop (region + size) }
    hal_flash_write := fun region size data s =>
      if s.protect || decide (s.mem.length < region + size) || decide (data.length < size) ||
          !((s.mem.drop region).take size).all (fun b => b == 255) then s
      else { s with mem := s.mem.take region ++ data.take size ++ s.mem.drop (region + size) } }

/-- The section `.paramflash` of the image as built: the bytes of `flash_params`,
then erased bytes up to the 2048 bytes that `write_params` erases; the region is
write-protected. -/
def flash_image : flash_t :=
  { protect := true
    mem := (flash_params.map param_t.bytes).flatten ++
      List.replicate (2048 - sizeof_params_) 255 }

/-! ## Lemmas on the comparison of floats -/

theorem float.le_eq_false_of_lt {a b : float} (h : float.lt a b = true) :
    float.le b a = false := by
  simp only [float.lt, float.le, Bool.and_eq_true, Bool.not_eq_true', decide_eq_true_eq] at h ⊢
  obtain ⟨⟨ha, hb⟩, hk⟩ := h
  simp only [ha, hb, Bool.not_false, Bool.true_and, decide_eq_false_iff_not]
  omega

theorem float.magnitude_lt_iff (a b : float) :
    a.magnitude < b.magnitude ↔
      a.exponent.val < b.exponent.val ∨
        (a.exponent.val = b.exponent.val ∧ a.fraction.val < b.fraction.val) := by
  have ha := a.fraction.isLt
  have hb := b.fraction.isLt
  simp only [float.magnitude]
  omega

/-- The scaled absolute value grows strictly with the exponent and fraction bits. -/
theorem float.numerator150_lt {a b : float} (h : a.magnitude < b.magnitude) :
    a.numerator150 < b.numerator150 := by
  have ha := a.fraction.isLt
  have hb := b.fraction.isLt
  rcases (float.magnitude_lt_iff a b).mp h with he | ⟨he, hf⟩
  · have hb0 : b.exponent.val ≠ 0 := by omega
    have hpow : 2 ^ (a.exponent.val + 1) ≤ 2 ^ b.exponent.val :=
      Nat.pow_le_pow_right (by decide) (by omega)
    have hbn : 8388608 * 2 ^ b.exponent.val ≤ b.numerator150 := by
      simp only [float.numerator150, hb0, if_false]
      exact Nat.mul_le_mul_right _ (by omega)
    by_cases ha0 : a.exponent.val = 0
    · have h1 : 2 ^ 1 ≤ 2 ^ b.exponent.val := Nat.pow_le_pow_right (by decide) (by omega)
      have hna : a.numerator150 = a.fraction.val * 2 := by
        simp only [float.numerator150, ha0, if_true]
      rw [hna]
      omega
    · have han : a.numerator150 < 16777216 * 2 ^ a.exponent.val := by
        simp only [float.numerator150, ha0, if_false]
        exact Nat.mul_lt_mul_of_pos_right (by omega) (Nat.two_pow_pos _)
      have h2 : 2 ^ (a.exponent.val + 1) = 2 * 2 ^ a.exponent.val := by
        rw [Nat.pow_succ]; omega
      omega
  · by_cases ha0 : a.exponent.val = 0
    · have hb0 : b.exponent.val = 0 := by omega
      simp only [float.numerator150, ha0, hb0, if_true]
      omega
    · have hb0 : b.exponent.val ≠ 0 := by omega
      simp only [float.numerator150, ha0, hb0, if_false, he]
      exact Nat.mul_lt_mul_of_pos_right (by omega) (Nat.two_pow_pos _)

theorem float.numerator150_le {a b : float} (h : a.magnitude ≤ b.magnitude) :
    a.numerator150 ≤ b.numerator150 := by
  rcases Nat.lt_or_eq_of_le h with hlt | heq
  · exact Nat.le_of_lt (float.numerator150_lt hlt)
  · have ha := a.fraction.isLt
    have hb := b.fraction.isLt
    simp only [float.magnitude] at heq
    have he : a.exponent.val = b.exponent.val := by omega
    have hf : a.fraction.val = b.fraction.val := by omega
    simp only [float.numerator150, he, hf, Nat.le_refl]

theorem float.trunc_le {a b : float} (h : a.magnitude ≤ b.magnitude) : a.trunc ≤ b.trunc :=
  Nat.div_le_div_right (float.numerator150_le h)

/-- What `lo <= v` and `v <= hi` say about the bits of `v`, for bounds that are not
negative. -/
theorem float.magnitude_of_le {lo v hi : float} (hlo : lo.sign = false) (hhi : hi.sign = false)
    (h1 : float.le lo v = true) (h2 : float.le v hi = true) :
    lo.magnitude ≤ v.magnitude ∧ v.magnitude ≤ hi.magnitude ∧
      (v.sign = true → v.magnitude = 0) := by
  simp only [float.le, Bool.and_eq_true, Bool.not_eq_true', decide_eq_true_eq, float.key,
    hlo, hhi] at h1 h2
  obtain ⟨_, h1⟩ := h1
  obtain ⟨_, h2⟩ := h2
  cases hs : v.sign
  · simp only [hs] at h1 h2
    simp at h1 h2
    exact ⟨by omega, by omega, by simp⟩
  · simp only [hs] at h1 h2
    simp at h1 h2
    exact ⟨by omega, by omega, fun _ => by omega⟩

theorem float.isFinite_of_magnitude_le {v hi : float} (hfin : hi.isFinite = true)
    (h : v.magnitude ≤ hi.magnitude) : v.isFinite = true := by
  have hv := v.fraction.isLt
  have hh := hi.fraction.isLt
  simp only [float.isFinite, decide_eq_true_eq, float.magnitude] at *
  omega

theorem float.numerator150_eq_zero {v : float} (h : v.magnitude = 0) : v.numerator150 = 0 := by
  simp only [float.magnitude] at h
  have he : v.exponent.val = 0 := by omega
  have hf : v.fraction.val = 0 := by omega
  simp [float.numerator150, he, hf]

/-- A float between two bounds that are not negative, the upper one finite and
within the target type, is cast to its integral part, which lies between the
integral parts of the bounds. -/
theorem float.to_uint_of_le {lo v hi : float} (width : Nat) (hlo : lo.sign = false)
    (hhi : hi.sign = false) (hfin : hi.isFinite = true) (hw : hi.trunc < 2 ^ width)
    (h1 : float.le lo v = true) (h2 : float.le v hi = true) :
    float.to_uint width v = some v.trunc ∧ lo.trunc ≤ v.trunc ∧ v.trunc ≤ hi.trunc := by
  obtain ⟨hm1, hm2, hs⟩ := float.magnitude_of_le hlo hhi h1 h2
  have ht1 := float.trunc_le hm1
  have ht2 := float.trunc_le hm2
  have hf := float.isFinite_of_magnitude_le hfin hm2
  have hsign : (!v.sign || v.trunc == 0) = true := by
    cases hsv : v.sign
    · simp
    · have := float.numerator150_eq_zero (hs hsv)
      simp [float.trunc, this]
  have hlt : v.trunc < 2 ^ width := Nat.lt_of_le_of_lt ht2 hw
  refine ⟨?_, ht1, ht2⟩
  simp [float.to_uint, hf, hsign, hlt]

/-! ## Lemmas on the setters and getters -/

theorem Configuration.lt_of_getElem? {c : Configuration} {i : Nat} {r : param_t}
    (h : c.params_[i]? = some r) : i < NUM_PARAMS := by
  have := (List.getElem?_eq_some.mp h).1
  rw [c.size_ok] at this
  exact this

theorem Configuration.set_by_index_of_ge (c : Configuration) {index : Nat} (value : float)
    (h : NUM_PARAMS ≤ index) : c.set_param_value_by_index index value = (false, c) := by
  simp [Configuration.set_param_value_by_index, h]

theorem Configuration.set_by_index_of_getElem? (c : Configuration) {index : Nat} {r : param_t}
    (value : float) (h : c.params_[index]? = some r) :
    c.set_param_value_by_index index value =
      if float.le r.min_value value && float.le value r.max_value
      then (true, c.assign_value index value) else (false, c) := by
  have hlt := Configuration.lt_of_getElem? h
  obtain ⟨hl, hr⟩ := List.getElem?_eq_some.mp h
  have hnot : ¬ index ≥ NUM_PARAMS := by omega
  simp only [Configuration.set_param_value_by_index, hnot, dite_false, hr]

theorem Configuration.get_by_index_of_ge (c : Configuration) (out_param : param_t) {index : Nat}
    (h : NUM_PARAMS ≤ index) : c.get_param_by_index out_param index = (false, out_param, c) := by
  simp [Configuration.get_param_by_index, h]

theorem Configuration.get_by_index_of_getElem? (c : Configuration) (out_param : param_t)
    {index : Nat} {r : param_t} (h : c.params_[index]? = some r) :
    c.get_param_by_index out_param index = (true, r, c) := by
  have hlt := Configuration.lt_of_getElem? h
  obtain ⟨hl, hr⟩ := List.getElem?_eq_some.mp h
  have hnot : ¬ index ≥ NUM_PARAMS := by omega
  simp only [Configuration.get_param_by_index, hnot, dite_false, hr]

theorem Configuration.assign_value_getElem? (c : Configuration) (index : Nat) (value : float)
    (j : Nat) :
    (c.assign_value index value).params_[j]? =
      if index = j then (c.params_[j]?).map (fun p => { p with value := value })
      else c.params_[j]? := by
  simp only [Configuration.assign_value, List.getElem?_modify]
  split
  · rfl
  · simp

/-! ## Lemmas on the name search -/

theorem first_index_eq_some_of {p : Nat → Bool} :
    ∀ (n s i : Nat), s ≤ i → i < s + n → p i = true →
      (∀ j, s ≤ j → j < i → p j = false) → first_index p n s = some i := by
  intro n
  induction n with
  | zero => intro s i h1 h2; omega
  | succ n ih =>
    intro s i h1 h2 hp hmin
    by_cases hs : s = i
    · subst hs
      simp [first_index, hp]
    · have hps : p s = false := hmin s (Nat.le_refl s) (by omega)
      simp only [first_index, hps, Bool.false_eq_true, if_false]
      exact ih (s + 1) i (by omega) (by omega) hp (fun j hj1 hj2 => hmin j (by omega) hj2)

theorem first_index_eq_none_of {p : Nat → Bool} :
    ∀ (n s : Nat), (∀ j, s ≤ j → j < s + n → p j = false) → first_index p n s = none := by
  intro n
  induction n with
  | zero => intro s _; rfl
  | succ n ih =>
    intro s hall
    have hps : p s = false := hall s (Nat.le_refl s) (by omega)
    simp only [first_index, hps, Bool.false_eq_true, if_false]
    exact ih (s + 1) (fun j hj1 hj2 => hall j (by omega) (by omega))

theorem first_index_some_elim {p : Nat → Bool} :
    ∀ (n s i : Nat), first_index p n s = some i →
      s ≤ i ∧ i < s + n ∧ p i = true ∧ ∀ j, s ≤ j → j < i → p j = false := by
  intro n
  induction n with
  | zero => intro s i h; simp [first_index] at h
  | succ n ih =>
    intro s i h
    by_cases hps : p s = true
    · simp only [first_index, hps, if_true, Option.some.injEq] at h
      subst h
      exact ⟨Nat.le_refl _, by omega, hps, fun j h1 h2 => by omega⟩
    · have hps2 : p s = false := by simpa using hps
      simp only [first_index, hps2, Bool.false_eq_true, if_false] at h
      obtain ⟨h1, h2, h3, h4⟩ := ih (s + 1) i h
      refine ⟨by omega, by omega, h3, fun j hj1 hj2 => ?_⟩
      by_cases hjs : j = s
      · subst hjs; exact hps2
      · exact h4 j (by omega) hj2

theorem byte_at_nil (k : Nat) : byte_at [] k = 0 := by
  simp [byte_at]

theorem byte_at_cons_zero (b : Nat) (t : List Nat) : byte_at (b :: t) 0 = b := by
  simp [byte_at]

theorem byte_at_cons_succ (b : Nat) (t : List Nat) (k : Nat) :
    byte_at (b :: t) (k + 1) = byte_at t k := by
  simp [byte_at]

theorem byte_at_zero (s : List Nat) : byte_at s 0 = s.headD 0 := by
  cases s <;> simp [byte_at]

theorem byte_at_tail (s : List Nat) (k : Nat) : byte_at s.tail k = byte_at s (k + 1) := by
  cases s <;> simp [byte_at]

theorem memcmp_eq_zero_iff :
    ∀ (n : Nat) (s1 s2 : List Nat),
      memcmp s1 s2 n = 0 ↔ ∀ k, k < n → byte_at s1 k = byte_at s2 k := by
  intro n
  induction n with
  | zero => intro s1 s2; simp [memcmp]
  | succ n ih =>
    intro s1 s2
    by_cases hh : s1.headD 0 = s2.headD 0
    · simp only [memcmp, hh, if_true, ih]
      constructor
      · intro h k hk
        cases k with
        | zero => simpa [byte_at_zero] using hh
        | succ k => simpa [byte_at_tail] using h k (by omega)
      · intro h k hk
        simpa [byte_at_tail] using h (k + 1) (by omega)
    · simp only [memcmp, hh, if_false]
      constructor
      · intro h; omega
      · intro h
        exact absurd (by simpa [byte_at_zero] using h 0 (by omega)) hh

theorem c_string_nil : c_string [] = [] := rfl

theorem c_string_cons_zero (t : List Nat) : c_string (0 :: t) = [] := by
  simp [c_string, List.takeWhile_cons]

theorem c_string_cons_ne {b : Nat} (t : List Nat) (hb : b ≠ 0) :
    c_string (b :: t) = b :: c_string t := by
  simp [c_string, List.takeWhile_cons, hb]

theorem byte_at_c_string_end : ∀ s : List Nat, byte_at s (c_string s).length = 0 := by
  intro s
  induction s with
  | nil => simp [c_string_nil, byte_at_nil]
  | cons b t ih =>
    by_cases hb : b = 0
    · subst hb; simp [c_string_cons_zero, byte_at_cons_zero]
    · simpa [c_string_cons_ne t hb, byte_at_cons_succ] using ih

theorem byte_at_c_string_lt :
    ∀ (s : List Nat) (k : Nat), k < (c_string s).length →
      byte_at s k = byte_at (c_string s) k ∧ byte_at s k ≠ 0 := by
  intro s
  induction s with
  | nil => intro k hk; simp [c_string_nil] at hk
  | cons b t ih =>
    intro k hk
    by_cases hb : b = 0
    · subst hb; simp [c_string_cons_zero] at hk
    · rw [c_string_cons_ne t hb] at hk ⊢
      cases k with
      | zero => simp [byte_at_cons_zero, hb]
      | succ k =>
        simp only [byte_at_cons_succ]
        exact ih k (by simpa using hk)

theorem c_string_eq_of_bytes :
    ∀ (s2 s1 : List Nat),
      (∀ k, k ≤ (c_string s2).length → byte_at s1 k = byte_at s2 k) →
        c_string s1 = c_string s2 := by
  intro s2
  induction s2 with
  | nil =>
    intro s1 h
    have h0 := h 0 (Nat.zero_le _)
    rw [byte_at_nil] at h0
    cases s1 with
    | nil => rfl
    | cons a t =>
      rw [byte_at_cons_zero] at h0
      subst h0
      simp [c_string_cons_zero, c_string_nil]
  | cons b t ih =>
    intro s1 h
    have h0 := h 0 (Nat.zero_le _)
    rw [byte_at_cons_zero] at h0
    by_cases hb : b = 0
    · subst hb
      cases s1 with
      | nil => simp [c_string_cons_zero, c_string_nil]
      | cons a t1 =>
        rw [byte_at_cons_zero] at h0
        subst h0
        simp [c_string_cons_zero]
    · cases s1 with
      | nil => rw [byte_at_nil] at h0; exact absurd h0.symm hb
      | cons a t1 =>
        rw [byte_at_cons_zero] at h0
        subst h0
        rw [c_string_cons_ne t1 hb, c_string_cons_ne t hb]
        congr 1
        apply ih
        intro k hk
        have := h (k + 1) (by rw [c_string_cons_ne t hb]; simpa using hk)
        simpa [byte_at_cons_succ] using this

theorem bytes_eq_of_c_string_eq {s1 s2 : List Nat} (h : c_string s1 = c_string s2) :
    ∀ k, k ≤ (c_string s2).length → byte_at s1 k = byte_at s2 k := by
  intro k hk
  rcases Nat.lt_or_eq_of_le hk with hlt | heq
  · rw [(byte_at_c_string_lt s2 k hlt).1, (byte_at_c_string_lt s1 k (by rw [h]; exact hlt)).1, h]
  · subst heq
    rw [byte_at_c_string_end s2]
    rw [← h]
    exact byte_at_c_string_end s1

theorem get_param_name_len_eq (name : List Nat) :
    _get_param_name_len name =
      if (c_string name).length < 27 then (c_string name).length + 1 else 0 := by
  unfold _get_param_name_len
  by_cases hL : (c_string name).length < 27
  · have hfi : first_index (fun i => byte_at name i == 0) 27 0 = some (c_string name).length := by
      apply first_index_eq_some_of
      · exact Nat.zero_le _
      · omega
      · simp [byte_at_c_string_end]
      · intro j _ hj
        simpa using (byte_at_c_string_lt name j hj).2
    simp [hfi, hL]
  · have hfi : first_index (fun i => byte_at name i == 0) 27 0 = none := by
      apply first_index_eq_none_of
      intro j _ hj
      simpa using (byte_at_c_string_lt name j (by omega)).2
    simp [hfi, hL]

theorem memcmp_name_eq_zero_iff (stored name : List Nat) :
    memcmp stored name ((c_string name).length + 1) = 0 ↔ c_string stored = c_string name := by
  rw [memcmp_eq_zero_iff]
  constructor
  · intro h
    exact c_string_eq_of_bytes name stored (fun k hk => h k (by omega))
  · intro h k hk
    exact bytes_eq_of_c_string_eq h k (by omega)

/-- The search of the source is the search by exact string equality. -/
theorem find_param_index_by_name_eq (name : List Nat) (params : List param_t)
    (num_params : Nat) :
    _find_param_index_by_name name params num_params = find_by_string name params num_params := by
  unfold _find_param_index_by_name find_by_string
  simp only [get_param_name_len_eq]
  by_cases hL : (c_string name).length < 27
  · by_cases h0 : (c_string name).length = 0
    · simp [hL, h0]
    · have h1 : ¬ ((c_string name).length + 1 ≤ 1) := by omega
      have h2 : ¬ ((c_string name).length = 0 ∨ 27 ≤ (c_string name).length) := by omega
      simp only [hL, if_true, h1, if_false, h2]
      have hp : (fun (i : Nat) => match (params[i]? : Option param_t) with
            | some p => memcmp p.name name ((c_string name).length + 1) == 0
            | none => false) =
          (fun (i : Nat) => match (params[i]? : Option param_t) with
            | some p => decide (c_string p.name = c_string name)
            | none => false) := by
        funext i
        cases params[i]? with
        | none => rfl
        | some p =>
          simp only [beq_iff_eq, memcmp_name_eq_zero_iff]
          by_cases hc : c_string p.name = c_string name
          · simp [hc, (memcmp_name_eq_zero_iff p.name name).mpr hc]
          · have := mt (memcmp_name_eq_zero_iff p.name name).mp hc
            simp [hc, this]
      rw [hp]
  · have h2 : (c_string name).length = 0 ∨ 27 ≤ (c_string name).length := by omega
    simp only [hL, if_false, Nat.zero_le, if_true, h2]

/-- The two ways the search ends: with `num_params`, or with the first position at
which the string of the record is the string of the query. -/
theorem find_by_string_cases (name : List Nat) (params : List param_t) (num_params : Nat) :
    find_by_string name params num_params = num_params ∨
      ∃ i, first_index
          (fun (i : Nat) => match (params[i]? : Option param_t) with
            | some p => decide (c_string p.name = c_string name)
            | none => false) num_params 0 = some i ∧
        find_by_string name params num_params = i := by
  by_cases hne : (c_string name).length = 0 ∨ 27 ≤ (c_string name).length
  · left
    simp only [find_by_string, hne, if_true]
  · cases hfi : first_index
        (fun (i : Nat) => match (params[i]? : Option param_t) with
          | some p => decide (c_string p.name = c_string name)
          | none => false) num_params 0 with
    | none =>
      left
      simp only [find_by_string, hne, if_false, hfi]
    | some i =>
      right
      exact ⟨i, rfl, by simp only [find_by_string, hne, if_false, hfi]⟩

theorem find_by_string_le (name : List Nat) (params : List param_t) (num_params : Nat) :
    find_by_string name params num_params ≤ num_params := by
  rcases find_by_string_cases name params num_params with h | ⟨i, hi, h⟩
  · omega
  · have := first_index_some_elim _ _ _ hi
    omega

/-- A search that stops below `num_params` stops at a record whose name is the
query, character for character. -/
theorem find_by_string_lt_elim {name : List Nat} {params : List param_t} {num_params : Nat}
    (h : find_by_string name params num_params < num_params) :
    ∃ p, params[find_by_string name params num_params]? = some p ∧
      c_string p.name = c_string name := by
  rcases find_by_string_cases name params num_params with h1 | ⟨i, hi, h1⟩
  · omega
  · rw [h1]
    have hpi := (first_index_some_elim _ _ _ hi).2.2.1
    cases hget : params[i]? with
    | none => simp [hget] at hpi
    | some p =>
      simp only [hget, decide_eq_true_eq] at hpi
      exact ⟨p, rfl, hpi⟩

/-- A name that is the string of no record is not found. -/
theorem find_by_string_of_unregistered {name : List Nat} {params : List param_t}
    (num_params : Nat) (h : ∀ p ∈ params, c_string name ≠ c_string p.name) :
    find_by_string name params num_params = num_params := by
  rcases Nat.lt_or_eq_of_le (find_by_string_le name params num_params) with hlt | heq
  · obtain ⟨p, hp, hc⟩ := find_by_string_lt_elim hlt
    exact absurd hc.symm (h p (List.mem_iff_getElem?.mpr ⟨_, hp⟩))
  · exact heq

theorem find_by_string_of_empty (name : List Nat) (params : List param_t) (num_params : Nat)
    (h : c_string name = []) : find_by_string name params num_params = num_params := by
  simp [find_by_string, h]

/-- The search reads the query only up to its first NUL. -/
theorem find_by_string_congr_name {n1 n2 : List Nat} (params : List param_t) (num_params : Nat)
    (h : c_string n1 = c_string n2) :
    find_by_string n1 params num_params = find_by_string n2 params num_params := by
  simp [find_by_string, h]

/-- The search reads nothing of the table but the names. -/
theorem find_by_string_congr_params (name : List Nat) {l1 l2 : List param_t} (num_params : Nat)
    (h : l1.map (fun p => p.name) = l2.map (fun p => p.name)) :
    find_by_string name l1 num_params = find_by_string name l2 num_params := by
  have hp : (fun (i : Nat) => match (l1[i]? : Option param_t) with
        | some p => decide (c_string p.name = c_string name)
        | none => false) =
      (fun (i : Nat) => match (l2[i]? : Option param_t) with
        | some p => decide (c_string p.name = c_string name)
        | none => false) := by
    funext i
    have hi : (l1.map (fun p => p.name))[i]? = (l2.map (fun p => p.name))[i]? := by rw [h]
    simp only [List.getElem?_map] at hi
    cases h1 : l1[i]? <;> cases h2 : l2[i]? <;> simp_all
  simp only [find_by_string, hp]

/-! ## Lemmas on sequences of setter calls -/

theorem Configuration.exists_record (c : Configuration) {index : Nat} (h : index < NUM_PARAMS) :
    ∃ r, c.params_[index]? = some r := by
  have hlt : index < c.params_.length := by rw [c.size_ok]; exact h
  exact ⟨c.params_[index], List.getElem?_eq_getElem hlt⟩

/-- What a call of `set_param_value_by_index` does, case by case. -/
theorem Configuration.set_by_index_cases (c : Configuration) (index : Nat) (value : float) :
    c.set_param_value_by_index index value = (false, c) ∨
      ∃ r, c.params_[index]? = some r ∧
        float.le r.min_value value = true ∧ float.le value r.max_value = true ∧
        c.set_param_value_by_index index value = (true, c.assign_value index value) := by
  by_cases h : NUM_PARAMS ≤ index
  · exact Or.inl (c.set_by_index_of_ge value h)
  · obtain ⟨r, hr⟩ := c.exists_record (Nat.lt_of_not_le h)
    rw [c.set_by_index_of_getElem? value hr]
    by_cases hb : (float.le r.min_value value && float.le value r.max_value) = true
    · right
      refine ⟨r, hr, ?_, ?_, by simp [hb]⟩
      · exact (Bool.and_eq_true_iff.mp hb).1
      · exact (Bool.and_eq_true_iff.mp hb).2
    · left
      simp [hb]

theorem Configuration.set_by_name_eq (c : Configuration) (name : List Nat) (value : float) :
    c.set_param_value_by_name name value =
      c.set_param_value_by_index (find_by_string name c.params_ NUM_PARAMS % 256) value := by
  simp only [Configuration.set_param_value_by_name, find_param_index_by_name_eq]

theorem Configuration.get_by_name_eq (c : Configuration) (out_param : param_t)
    (name : List Nat) :
    c.get_param_by_name out_param name =
      c.get_param_by_index out_param (find_by_string name c.params_ NUM_PARAMS % 256) := by
  simp only [Configuration.get_param_by_name, find_param_index_by_name_eq]

/-- The result of the search over the 22 records survives the cast to `uint8_t`. -/
theorem find_by_string_mod (name : List Nat) (params : List param_t) :
    find_by_string name params NUM_PARAMS % 256 = find_by_string name params NUM_PARAMS := by
  have hle := find_by_string_le name params NUM_PARAMS
  have hn : NUM_PARAMS = 22 := rfl
  exact Nat.mod_eq_of_lt (by omega)

/-- A property of stores kept by every call of `set_param_value_by_index` is kept by
every sequence of setter calls. -/
theorem Configuration.run_induction (P : Configuration → Prop)
    (hstep : ∀ (c : Configuration) (index : Nat) (value : float),
      P c → P (c.set_param_value_by_index index value).2) :
    ∀ (calls : List set_call) (c : Configuration), P c → P (c.run calls) := by
  intro calls
  induction calls with
  | nil => intro c hc; exact hc
  | cons call rest ih =>
    intro c hc
    simp only [Configuration.run, List.foldl_cons]
    apply ih
    cases call with
    | by_index index value => exact hstep c index value hc
    | by_name name value =>
      simp only [Configuration.apply_call, Configuration.set_by_name_eq]
      exact hstep c _ value hc

theorem Configuration.set_by_index_in_bounds (c : Configuration) (index : Nat) (value : float)
    (hc : ∀ p ∈ c.params_, p.in_bounds = true) :
    ∀ p ∈ (c.set_param_value_by_index index value).2.params_, p.in_bounds = true := by
  rcases c.set_by_index_cases index value with h | ⟨r, hr, hmin, hmax, h⟩
  · rw [h]; exact hc
  · rw [h]
    intro p hp
    obtain ⟨j, hj⟩ := List.mem_iff_getElem?.mp hp
    rw [Configuration.assign_value_getElem?] at hj
    by_cases hij : index = j
    · subst hij
      simp only [if_true, hr, Option.map_some', Option.some.injEq] at hj
      subst hj
      simp [param_t.in_bounds, hmin, hmax]
    · simp only [hij, if_false] at hj
      exact hc p (List.mem_iff_getElem?.mpr ⟨j, hj⟩)

theorem Configuration.assign_value_fixed (c : Configuration) (index : Nat) (value : float) :
    (c.assign_value index value).params_.map param_t.fixed_part =
      c.params_.map param_t.fixed_part := by
  apply List.ext_getElem?
  intro j
  simp only [List.getElem?_map, Configuration.assign_value_getElem?]
  by_cases hij : index = j
  · simp only [hij, if_true]
    cases c.params_[j]? <;> rfl
  · simp only [hij, if_false]

theorem Configuration.set_by_index_fixed (c : Configuration) (index : Nat) (value : float) :
    (c.set_param_value_by_index index value).2.params_.map param_t.fixed_part =
      c.params_.map param_t.fixed_part := by
  rcases c.set_by_index_cases index value with h | ⟨r, _, _, _, h⟩
  · rw [h]
  · rw [h]; exact c.assign_value_fixed index value

theorem Configuration.set_by_index_others (c : Configuration) (index : Nat) (value : float)
    (j : Nat) (hj : j ≠ index) :
    (c.set_param_value_by_index index value).2.params_[j]? = c.params_[j]? := by
  rcases c.set_by_index_cases index value with h | ⟨r, _, _, _, h⟩
  · rw [h]
  · rw [h, Configuration.assign_value_getElem?]
    simp [Ne.symm hj]

theorem map_eq_of_fixed_eq {l1 l2 : List param_t} {β : Type}
    (f : Nat × List Nat × float × float × float → β)
    (h : l1.map param_t.fixed_part = l2.map param_t.fixed_part) :
    l1.map (fun p => f p.fixed_part) = l2.map (fun p => f p.fixed_part) := by
  have := congrArg (List.map f) h
  simpa [List.map_map, Function.comp_def] using this

/-! ## Lemmas on the table of the image and the stores reached from it -/

/-- Checked record by record on `flash_params`: the index field is the position,
the name has between 1 and 26 characters, and the search for the name stops at the
position of the record. -/
theorem flash_params_facts :
    ∀ i, i < 22 →
      (match flash_params[i]? with
        | some f => decide (f.index = i ∧ 1 ≤ (c_string f.name).length ∧
            (c_string f.name).length ≤ 26 ∧ find_by_string f.name flash_params NUM_PARAMS = i)
        | none => false) = true := by
  decide

theorem flash_params_record {i : Nat} {f : param_t} (h : flash_params[i]? = some f) :
    f.index = i ∧ 1 ≤ (c_string f.name).length ∧ (c_string f.name).length ≤ 26 ∧
      find_by_string f.name flash_params NUM_PARAMS = i := by
  have hi : i < 22 := (List.getElem?_eq_some.mp h).1
  have := flash_params_facts i hi
  simpa [h] using this

/-- Setter calls never write anything but values. -/
theorem Configuration.run_fixed (calls : List set_call) :
    (Configuration.fresh.run calls).params_.map param_t.fixed_part =
      flash_params.map param_t.fixed_part :=
  Configuration.run_induction
    (fun c => c.params_.map param_t.fixed_part = flash_params.map param_t.fixed_part)
    (fun c index value hc => (c.set_by_index_fixed index value).trans hc)
    calls Configuration.fresh rfl

/-- A record of a reached store sits where a record of `flash_params` with the same
index and name sits. -/
theorem Configuration.run_record {calls : List set_call} {i : Nat} {r : param_t}
    (h : (Configuration.fresh.run calls).params_[i]? = some r) :
    ∃ f, flash_params[i]? = some f ∧ f.index = r.index ∧ f.name = r.name := by
  have hf := Configuration.run_fixed calls
  have hi : ((Configuration.fresh.run calls).params_.map param_t.fixed_part)[i]? =
      (flash_params.map param_t.fixed_part)[i]? := by rw [hf]
  simp only [List.getElem?_map, h, Option.map_some'] at hi
  cases hfl : flash_params[i]? with
  | none => simp [hfl] at hi
  | some f =>
    simp only [hfl, Option.map_some', Option.some.injEq, param_t.fixed_part, Prod.mk.injEq] at hi
    exact ⟨f, rfl, hi.1.symm, hi.2.1.symm⟩

theorem Configuration.run_find (calls : List set_call) (name : List Nat) :
    find_by_string name (Configuration.fresh.run calls).params_ NUM_PARAMS =
      find_by_string name flash_params NUM_PARAMS :=
  find_by_string_congr_params name NUM_PARAMS
    (map_eq_of_fixed_eq (fun t => t.2.1) (Configuration.run_fixed calls))

/-- In a table whose names are pairwise distinct strings of 1 to 26 characters, the
search for the string of a record stops at that record. -/
theorem find_by_string_of_distinct {params : List param_t} {name : List Nat} {i : Nat}
    {r : param_t} (num_params : Nat) (hi : i < num_params)
    (hr : params[i]? = some r) (hname : c_string name = c_string r.name)
    (hlen : 1 ≤ (c_string r.name).length ∧ (c_string r.name).length ≤ 26)
    (hdistinct : ∀ j rj, params[j]? = some rj → c_string rj.name = c_string r.name → j = i) :
    find_by_string name params num_params = i := by
  have hne : ¬ ((c_string name).length = 0 ∨ 27 ≤ (c_string name).length) := by
    rw [hname]; omega
  have hfi : first_index
      (fun (i : Nat) => match (params[i]? : Option param_t) with
        | some p => decide (c_string p.name = c_string name)
        | none => false) num_params 0 = some i := by
    apply first_index_eq_some_of
    · exact Nat.zero_le _
    · omega
    · simp [hr, hname]
    · intro j _ hj
      cases hget : params[j]? with
      | none => rfl
      | some rj =>
        simp only [decide_eq_false_iff_not]
        intro hc
        have := hdistinct j rj hget (hc.trans hname)
        omega
  simp only [find_by_string, hne, if_false, hfi]

/-! ## Lemmas on the group readers -/

theorem Configuration.param_getElem? (c : Configuration) (index : Nat) (h : index < NUM_PARAMS) :
    c.params_[index]? = some (c.param index h) := by
  have hlt : index < c.params_.length := by rw [c.size_ok]; exact h
  rw [List.getElem?_eq_getElem hlt]
  rfl

theorem Configuration.param_eq_of_getElem? {c : Configuration} {index : Nat} {r : param_t}
    (h : index < NUM_PARAMS) (hr : c.params_[index]? = some r) : c.param index h = r := by
  rw [c.param_getElem? index h] at hr
  exact Option.some.inj hr

/-- A store that holds the fixed columns of `flash_params` holds them record by
record. -/
theorem Configuration.param_fixed (c : Configuration)
    (hfixed : c.params_.map param_t.fixed_part = flash_params.map param_t.fixed_part)
    (index : Nat) (h : index < NUM_PARAMS) :
    (c.param index h).fixed_part = (Configuration.fresh.param index h).fixed_part := by
  have hi : (c.params_.map param_t.fixed_part)[index]? =
      (Configuration.fresh.params_.map param_t.fixed_part)[index]? := by
    rw [hfixed]; rfl
  simp only [List.getElem?_map, Configuration.param_getElem? _ index h, Option.map_some',
    Option.some.injEq] at hi
  exact hi

theorem Configuration.param_in_bounds (c : Configuration)
    (hb : ∀ p ∈ c.params_, p.in_bounds = true) (index : Nat) (h : index < NUM_PARAMS) :
    (c.param index h).in_bounds = true :=
  hb _ (List.mem_iff_getElem?.mpr ⟨index, c.param_getElem? index h⟩)

/-- In a store with the bounds of `flash_params` and every value within its bounds,
the value at an index lies between the bounds that `flash_params` gives that index. -/
theorem Configuration.value_between (c : Configuration)
    (hfixed : c.params_.map param_t.fixed_part = flash_params.map param_t.fixed_part)
    (hb : ∀ p ∈ c.params_, p.in_bounds = true) (index : Nat) (h : index < NUM_PARAMS) :
    float.le (Configuration.fresh.param index h).min_value (c.param index h).value = true ∧
      float.le (c.param index h).value (Configuration.fresh.param index h).max_value = true := by
  have hf := c.param_fixed hfixed index h
  have hin := c.param_in_bounds hb index h
  simp only [param_t.fixed_part, Prod.mk.injEq] at hf
  simp only [param_t.in_bounds, Bool.and_eq_true] at hin
  rw [← hf.2.2.2.1, ← hf.2.2.2.2]
  exact hin

theorem Configuration.run_in_bounds (calls : List set_call) :
    ∀ p ∈ (Configuration.fresh.run calls).params_, p.in_bounds = true :=
  Configuration.run_induction (fun c => ∀ p ∈ c.params_, p.in_bounds = true)
    (fun c index value hc => c.set_by_index_in_bounds index value hc) calls
    Configuration.fresh (by decide)

theorem Configuration.read_motor_params_of_cast {K : Type} [Field K] (M_PI : K)
    (c : Configuration) {num_poles : Nat}
    (h : float.to_uint 32 (c.param PARAM_MOTOR_NUM_POLES (by decide)).value = some num_poles) :
    c.read_motor_params M_PI =
      some
        ({ num_poles := num_poles
           max_current_a := (c.param PARAM_MOTOR_CURRENT_LIMIT (by decide)).value
           max_voltage_v := (c.param PARAM_MOTOR_VOLTAGE_LIMIT (by decide)).value
           max_speed_rad_per_s :=
             _rad_per_s_from_rpm M_PI
               (float.toField (c.param PARAM_MOTOR_RPM_MAX (by decide)).value) num_poles
           rs_r := (c.param PARAM_MOTOR_RS (by decide)).value
           ls_h := (c.param PARAM_MOTOR_LS (by decide)).value
           phi_v_s_per_rad :=
             _rad_per_s_from_rpm M_PI
               (1 / float.toField (c.param PARAM_MOTOR_KV (by decide)).value) num_poles },
          c) := by
  simp only [Configuration.read_motor_params, h]

/-- The cast of the value at an index, in a store with the bounds of `flash_params`
and every value within its bounds, when those bounds are not negative and the upper
one fits the target type. -/
theorem Configuration.cast_between (c : Configuration)
    (hfixed : c.params_.map param_t.fixed_part = flash_params.map param_t.fixed_part)
    (hb : ∀ p ∈ c.params_, p.in_bounds = true) (index : Nat) (h : index < NUM_PARAMS)
    (width : Nat)
    (hlo : (Configuration.fresh.param index h).min_value.sign = false)
    (hhi : (Configuration.fresh.param index h).max_value.sign = false)
    (hfin : (Configuration.fresh.param index h).max_value.isFinite = true)
    (hw : (Configuration.fresh.param index h).max_value.trunc < 2 ^ width) :
    float.to_uint width (c.param index h).value = some (c.param index h).value.trunc ∧
      (Configuration.fresh.param index h).min_value.trunc ≤ (c.param index h).value.trunc ∧
      (c.param index h).value.trunc ≤ (Configuration.fresh.param index h).max_value.trunc :=
  float.to_uint_of_le width hlo hhi hfin hw (c.value_between hfixed hb index h).1
    (c.value_between hfixed hb index h).2

/-- Above one half, the integral part of a float is 0 exactly when the float is
below one. -/
theorem float.trunc_eq_zero_iff {v : float} (h : float.le (float.lit 5 1) v = true) :
    v.trunc = 0 ↔ float.lt v (float.lit 10 1) = true := by
  have hone : (float.lit 10 1).numerator150 = 2 ^ 150 := by decide
  have hmag1 : (float.lit 10 1).magnitude = 1065353216 := by decide
  have hkey1 : (float.lit 10 1).key = 1065353216 := by decide
  have hnan1 : (float.lit 10 1).isNaN = false := by decide
  have hkey5 : (float.lit 5 1).key = 1056964608 := by decide
  simp only [float.le, Bool.and_eq_true, Bool.not_eq_true', decide_eq_true_eq, hkey5] at h
  obtain ⟨⟨_, hnan⟩, hk⟩ := h
  have hkv : v.key = (v.magnitude : Int) := by
    simp only [float.key] at hk ⊢
    split at hk
    · omega
    · rename_i hs
      simp [hs]
  simp only [float.lt, hnan, hnan1, hkey1, hkv, Bool.not_false, Bool.true_and, decide_eq_true_eq]
  constructor
  · intro ht
    by_contra hge
    have hle : (float.lit 10 1).magnitude ≤ v.magnitude := by rw [hmag1]; omega
    have hn := float.numerator150_le hle
    rw [hone] at hn
    have : 1 ≤ v.trunc := (Nat.one_le_div_iff (Nat.two_pow_pos 150)).mpr hn
    omega
  · intro hlt
    have hlt2 : v.magnitude < (float.lit 10 1).magnitude := by rw [hmag1]; omega
    have hn := float.numerator150_lt hlt2
    rw [hone] at hn
    exact Nat.div_eq_of_lt hn

/-- From a bound `lo` that is positive, a float `v` with `lo <= v` is positive too,
and its scaled absolute value is at least that of `lo`. -/
theorem float.numerator150_of_le {lo v : float} (hlo : lo.sign = false)
    (hpos : 0 < lo.magnitude) (h : float.le lo v = true) :
    v.sign = false ∧ lo.numerator150 ≤ v.numerator150 := by
  simp only [float.le, Bool.and_eq_true, Bool.not_eq_true', decide_eq_true_eq, float.key,
    hlo] at h
  obtain ⟨_, hk⟩ := h
  cases hs : v.sign
  · simp only [hs] at hk
    simp at hk
    exact ⟨rfl, float.numerator150_le (by omega)⟩
  · simp only [hs] at hk
    simp at hk
    omega

/-- A search that stops below `num_params` has passed over no record whose name is
the string of the query. -/
theorem find_by_string_lt_min {name : List Nat} {params : List param_t} {num_params : Nat}
    (h : find_by_string name params num_params < num_params) :
    ∀ j pj, j < find_by_string name params num_params → params[j]? = some pj →
      c_string pj.name ≠ c_string name := by
  rcases find_by_string_cases name params num_params with h1 | ⟨i, hi, h1⟩
  · omega
  · rw [h1]
    intro j pj hj hpj hc
    have hmin := (first_index_some_elim _ _ _ hi).2.2.2 j (Nat.zero_le _) hj
    simp [hpj, hc] at hmin

theorem c_string_length_eq_zero_of_byte {name : List Nat} (h : byte_at name 0 = 0) :
    (c_string name).length = 0 := by
  by_contra hne
  exact (byte_at_c_string_lt name 0 (by omega)).2 h

theorem c_string_length_ge_of_bytes {name : List Nat} (h : ∀ i, i < 27 → byte_at name i ≠ 0) :
    27 ≤ (c_string name).length := by
  by_contra hlt
  exact h _ (by omega) (byte_at_c_string_end name)

/-- Agreement on the bytes of the query up to and including its terminator is
equality of the strings. -/
theorem bytes_agree_iff (stored name : List Nat) :
    (∀ k, k ≤ (c_string name).length → byte_at stored k = byte_at name k) ↔
      c_string stored = c_string name :=
  ⟨c_string_eq_of_bytes name stored, fun h => bytes_eq_of_c_string_eq h⟩

/-- The value of a float that is not negative, from its scaled absolute value. -/
theorem float.toField_of_numerator {K : Type} [Field K] [CharZero K] (x : float) (n : Nat)
    (hs : x.sign = false) (hn : x.numerator150 = n * 2 ^ 150) : (x.toField : K) = (n : K) := by
  simp only [float.toField, hs, Bool.false_eq_true, if_false, hn]
  rw [Nat.cast_mul, Nat.cast_pow, Nat.cast_ofNat]
  exact mul_div_cancel_right₀ _ (pow_ne_zero 150 two_ne_zero)

/-- Halving in the integers and halving in the field agree on even counts. -/
theorem rad_per_s_from_rpm_of_even {K : Type} [Field K] [CharZero K] (M_PI rpm : K)
    (num_poles : Nat) (h : num_poles % 2 = 0) :
    _rad_per_s_from_rpm M_PI rpm num_poles = rad_per_s_reference M_PI rpm num_poles := by
  have hdvd : 2 ∣ num_poles := Nat.dvd_of_mod_eq_zero h
  have hcast : ((num_poles >>> 1 : Nat) : K) = (num_poles : K) / 2 := by
    rw [Nat.shiftRight_eq_div_pow, pow_one, Nat.cast_div hdvd (by norm_num)]
    norm_num
  simp only [_rad_per_s_from_rpm, rad_per_s_reference, hcast]

/-- The quantity `20000 * 60 / (2π * 7)` to one decimal place. -/
theorem rad_per_s_example_bounds :
    (27283.6 : ℝ) ≤ 20000 * 60 / (2 * Real.pi * 7) ∧
      20000 * 60 / (2 * Real.pi * 7) ≤ (27283.8 : ℝ) := by
  have h1 := Real.pi_gt_d6
  have h2 := Real.pi_lt_d6
  have hpos : (0 : ℝ) < 2 * Real.pi * 7 := by positivity
  constructor
  · rw [le_div_iff₀ hpos]
    nlinarith
  · rw [div_le_iff₀ hpos]
    nlinarith

/-! ## Lemmas on persistence -/

theorem Configuration.ext_params {c d : Configuration} (h : c.params_ = d.params_) : c = d := by
  cases c; cases d; simp_all

theorem float.ofBytes_bytes (x : float) : float.ofBytes x.bytes = x := by
  obtain ⟨s, e, f⟩ := x
  have he := e.isLt
  have hf := f.isLt
  simp only [float.ofBytes, float.bytes, float.bits, float.magnitude, float.ofBits,
    List.getD_cons_zero, List.getD_cons_succ, float.mk.injEq]
  cases s
  · refine ⟨?_, ?_, ?_⟩
    · simp only [Bool.false_eq_true, if_false, decide_eq_false_iff_not]
      omega
    · apply Fin.ext
      simp only [Fin.ofNat, Bool.false_eq_true, if_false]
      omega
    · apply Fin.ext
      simp only [Fin.ofNat, Bool.false_eq_true, if_false]
      omega
  · refine ⟨?_, ?_, ?_⟩
    · simp only [if_true, decide_eq_true_eq]
      omega
    · apply Fin.ext
      simp only [Fin.ofNat, if_true]
      omega
    · apply Fin.ext
      simp only [Fin.ofNat, if_true]
      omega

theorem float.bytes_length_four (x : float) : x.bytes.length = 4 := rfl

theorem param_t.bytes_length_record (p : param_t) : p.bytes.length = sizeof_param_t := by
  simp [param_t.bytes, float.bytes_length_four, p.name_size, sizeof_param_t]

/-- The bytes of a record are read back as the record, when its index and the bytes
of its name fit a byte. -/
theorem param_t.of_bytes_bytes (p : param_t) (hindex : p.index < 256)
    (hname : ∀ b ∈ p.name, b < 256) : param_t.of_bytes p.bytes = p := by
  obtain ⟨index, name, value, default_value, min_value, max_value, name_size⟩ := p
  simp only at hindex hname
  have hmap : name.map (fun b => b % 256) = name := by
    conv_rhs => rw [← List.map_id name]
    apply List.map_congr_left
    intro b hb
    exact Nat.mod_eq_of_lt (hname b hb)
  have hB : param_t.bytes ⟨index, name, value, default_value, min_value, max_value, name_size⟩ =
      index :: (name ++ (value.bytes ++ (default_value.bytes ++
        (min_value.bytes ++ max_value.bytes)))) := by
    simp only [param_t.bytes, hmap, Nat.mod_eq_of_lt hindex, List.append_assoc,
      List.singleton_append, List.cons_append, List.nil_append]
  have h1 : (index :: (name ++ (value.bytes ++ (default_value.bytes ++
      (min_value.bytes ++ max_value.bytes))))).drop 1 =
      name ++ (value.bytes ++ (default_value.bytes ++ (min_value.bytes ++ max_value.bytes))) :=
    rfl
  have h28 : (index :: (name ++ (value.bytes ++ (default_value.bytes ++
      (min_value.bytes ++ max_value.bytes))))).drop 28 =
      value.bytes ++ (default_value.bytes ++ (min_value.bytes ++ max_value.bytes)) := by
    rw [List.drop_succ_cons, List.drop_left' name_size]
  have h32 : (index :: (name ++ (value.bytes ++ (default_value.bytes ++
      (min_value.bytes ++ max_value.bytes))))).drop 32 =
      default_value.bytes ++ (min_value.bytes ++ max_value.bytes) := by
    rw [show (32 : Nat) = 28 + 4 from rfl, ← List.drop_drop, h28,
      List.drop_left' (float.bytes_length_four value)]
  have h36 : (index :: (name ++ (value.bytes ++ (default_value.bytes ++
      (min_value.bytes ++ max_value.bytes))))).drop 36 =
      min_value.bytes ++ max_value.bytes := by
    rw [show (36 : Nat) = 32 + 4 from rfl, ← List.drop_drop, h32,
      List.drop_left' (float.bytes_length_four default_value)]
  have h40 : (index :: (name ++ (value.bytes ++ (default_value.bytes ++
      (min_value.bytes ++ max_value.bytes))))).drop 40 = max_value.bytes := by
    rw [show (40 : Nat) = 36 + 4 from rfl, ← List.drop_drop, h36,
      List.drop_left' (float.bytes_length_four min_value)]
  have h40t : max_value.bytes.take 4 = max_value.bytes :=
    List.take_of_length_le (Nat.le_of_eq (float.bytes_length_four max_value))
  simp only [param_t.of_bytes, hB, h1, h28, h32, h36, h40, h40t, List.getD_cons_zero,
    List.take_left' name_size, List.take_left' (float.bytes_length_four _), param_t.mk.injEq,
    float.ofBytes_bytes, and_self]

theorem table_bytes_length (l : List param_t) :
    (l.map param_t.bytes).flatten.length = sizeof_param_t * l.length := by
  induction l with
  | nil => rfl
  | cons p t ih =>
    simp only [List.map_cons, List.flatten_cons, List.length_append, List.length_cons, ih,
      param_t.bytes_length_record]
    rw [Nat.mul_succ, Nat.add_comm]

theorem Configuration.bytes_length_table (c : Configuration) : c.bytes.length = sizeof_params_ := by
  rw [Configuration.bytes, table_bytes_length, c.size_ok, sizeof_params_, Nat.mul_comm]

/-- The bytes of a table are read back as the table, when every index and every byte
of a name fits a byte. -/
theorem params_of_bytes_bytes (l : List param_t)
    (h : ∀ p ∈ l, p.index < 256 ∧ ∀ b ∈ p.name, b < 256) :
    params_of_bytes l.length (l.map param_t.bytes).flatten = l := by
  induction l with
  | nil => rfl
  | cons p t ih =>
    have hp := h p (List.mem_cons_self p t)
    have ht : ∀ q ∈ t, q.index < 256 ∧ ∀ b ∈ q.name, b < 256 :=
      fun q hq => h q (List.mem_cons_of_mem p hq)
    have hrest : ∀ i, ((p.bytes ++ (t.map param_t.bytes).flatten).drop
        (sizeof_param_t * (i + 1))) = ((t.map param_t.bytes).flatten).drop (sizeof_param_t * i) := by
      intro i
      rw [Nat.mul_succ, Nat.add_comm, ← List.drop_drop, List.drop_left' (param_t.bytes_length_record p)]
    simp only [params_of_bytes, List.length_cons, List.range_succ_eq_map, List.map_cons,
      List.map_map, List.flatten_cons, Nat.mul_zero, List.drop_zero,
      List.take_left' (param_t.bytes_length_record p), param_t.of_bytes_bytes p hp.1 hp.2,
      List.cons.injEq, true_and]
    have := ih ht
    simp only [params_of_bytes] at this
    conv_rhs => rw [← this]
    apply List.map_congr_left
    intro i _
    simp only [Function.comp_apply, Nat.succ_eq_add_one, hrest]

/-- What `write_params` leaves in a flash region of at least 2048 bytes: the region is
protected again and starts with the bytes of the table. -/
theorem Configuration.write_params_flash (c : Configuration) (s : flash_t)
    (h : 2048 ≤ s.mem.length) :
    c.write_params flash_hal s =
      ({ protect := true
         mem := c.bytes ++
           (List.replicate 2048 255 ++ s.mem.drop 2048).drop sizeof_params_ }, c) := by
  have hlen := c.bytes_length_table
  have hsz : sizeof_params_ = 968 := rfl
  have h1 : ¬ (s.mem.length < 2048) := by omega
  have herased : ((List.replicate 2048 255 ++ s.mem.drop 2048).take sizeof_params_).all
      (fun b => b == 255) = true := by
    rw [List.all_eq_true]
    intro b hb
    rw [hsz, List.take_append_of_le_length (by rw [List.length_replicate]; omega),
      List.take_replicate] at hb
    rw [List.eq_of_mem_replicate hb]
    rfl
  have h2 : ¬ ((List.replicate 2048 255 ++ s.mem.drop 2048).length < sizeof_params_) := by
    simp only [List.length_append, List.length_replicate, hsz]
    omega
  have h3 : ¬ (c.bytes.length < sizeof_params_) := by omega
  have htake : c.bytes.take sizeof_params_ = c.bytes :=
    List.take_of_length_le (Nat.le_of_eq hlen)
  simp only [Configuration.write_params, flash_hal, flash_params_addr, Nat.zero_add,
    Bool.false_or, decide_eq_true_eq, h1, if_false, List.take_zero, List.nil_append,
    List.drop_zero, h2, h3, herased, Bool.not_true, Bool.or_false, decide_False, htake,
    Bool.false_eq_true]

/-- A table whose indices and name bytes fit a byte is read back from the region that
`write_params` has written. -/
theorem Configuration.load_write_params (c : Configuration) (s : flash_t)
    (h : 2048 ≤ s.mem.length)
    (hfit : ∀ p ∈ c.params_, p.index < 256 ∧ ∀ b ∈ p.name, b < 256) :
    Configuration.load (c.write_params flash_hal s).1.mem = c := by
  apply Configuration.ext_params
  rw [c.write_params_flash s h]
  simp only [Configuration.load, Configuration.new, flash_params_addr, List.drop_zero,
    List.take_left' c.bytes_length_table]
  rw [← c.size_ok]
  exact params_of_bytes_bytes c.params_ hfit

theorem flash_params_fit : ∀ p ∈ flash_params, p.index < 256 ∧ ∀ b ∈ p.name, b < 256 := by
  decide

theorem Configuration.run_fit (calls : List set_call) :
    ∀ p ∈ (Configuration.fresh.run calls).params_, p.index < 256 ∧ ∀ b ∈ p.name, b < 256 := by
  intro p hp
  have hmem : p.fixed_part ∈ (Configuration.fresh.run calls).params_.map param_t.fixed_part :=
    List.mem_map_of_mem _ hp
  rw [Configuration.run_fixed calls] at hmem
  obtain ⟨f, hf, hfp⟩ := List.mem_map.mp hmem
  simp only [param_t.fixed_part, Prod.mk.injEq] at hfp
  have := flash_params_fit f hf
  rw [hfp.1, hfp.2.1] at this
  exact this

theorem flash_image_length : flash_image.mem.length = 2048 := by
  simp only [flash_image, List.length_append, List.length_replicate, table_bytes_length]
  rfl

/-- A store constructed from the flash region of the image as built is the fresh
store. -/
theorem Configuration.load_flash_image : Configuration.load flash_image.mem = Configuration.fresh := by
  apply Configuration.ext_params
  have hlen : (flash_params.map param_t.bytes).flatten.length = sizeof_params_ := by
    rw [table_bytes_length]; rfl
  simp only [Configuration.load, Configuration.new, flash_params_addr, List.drop_zero,
    flash_image, List.take_left' hlen, Configuration.fresh]
  exact params_of_bytes_bytes flash_params flash_params_fit

/-! ## Checks of the embedding -/

/-- The literals of the table that binary32 does not hold exactly, and a few that it
does, against their bit fields. -/
theorem float_lit_bits :
    [float.lit 60 3, float.lit 74 1, float.lit 20 6, float.lit 1 6, float.lit 1000 6,
      float.lit 1 3, float.lit 1 2, float.lit 1 1, float.lit 100 3, float.lit 1000 3,
      float.lit 0 1, float.lit (-10) 1, float.lit (-400000) 1, float.lit 140 1,
      float.lit 19000 1] =
    [⟨false, 122, 7717519⟩, ⟨false, 129, 7130317⟩, ⟨false, 111, 2606508⟩,
      ⟨false, 107, 407485⟩, ⟨false, 117, 201327⟩, ⟨false, 117, 201327⟩,
      ⟨false, 120, 2348810⟩, ⟨false, 123, 5033165⟩, ⟨false, 123, 5033165⟩,
      ⟨false, 127, 0⟩, ⟨false, 0, 0⟩, ⟨true, 127, 0⟩, ⟨true, 142, 1851392⟩,
      ⟨false, 130, 6291456⟩, ⟨false, 137, 7176192⟩] := by
  decide

/-- The comparisons on special values: the two zeros compare equal, a NaN compares
false with everything, itself included, and the infinities bound every literal. -/
theorem float_compare_checks :
    float.le ⟨true, 0, 0⟩ ⟨false, 0, 0⟩ = true ∧
      float.le ⟨false, 0, 0⟩ ⟨true, 0, 0⟩ = true ∧
      float.lt ⟨true, 0, 0⟩ ⟨false, 0, 0⟩ = false ∧
      float.le ⟨false, 255, 1⟩ ⟨false, 255, 1⟩ = false ∧
      float.le (float.lit 0 1) ⟨false, 255, 1⟩ = false ∧
      float.le ⟨true, 255, 4194304⟩ (float.lit 0 1) = false ∧
      float.le (float.lit 400000 1) ⟨false, 255, 0⟩ = true ∧
      float.le ⟨true, 255, 0⟩ (float.lit (-400000) 1) = true ∧
      float.lt (float.lit (-10) 1) (float.lit 0 1) = true ∧
      float.lt ⟨false, 0, 1⟩ (float.lit 1 6) = true := by
  decide

/-- The casts of floats to unsigned integers on a few values: truncation toward
zero, a negative fraction cast to 0, and the undefined cases. -/
theorem float_cast_checks :
    float.to_uint 32 (float.lit 74 1) = some 7 ∧
      float.to_uint 8 (float.lit 19 1) = some 1 ∧
      float.to_uint 8 (float.lit (-5) 1) = some 0 ∧
      float.to_uint 8 (float.lit (-10) 1) = none ∧
      float.to_uint 8 (float.lit 2559 1) = some 255 ∧
      float.to_uint 8 (float.lit 2560 1) = none ∧
      float.to_uint 16 (float.lit 655359 1) = some 65535 ∧
      float.to_uint 32 ⟨false, 255, 0⟩ = none ∧
      float.to_uint 32 ⟨false, 255, 1⟩ = none ∧
      float.to_uint 32 ⟨false, 0, 1⟩ = some 0 := by
  decide

/-- The values of a few floats as rationals, and the bits of `7.4f`
(`0x40ECCCCD`). -/
theorem float_value_checks :
    (float.toField (float.lit 200000 1) : ℚ) = 20000 ∧
      (float.toField (float.lit 5 1) : ℚ) = 1 / 2 ∧
      (float.toField (float.lit (-10) 1) : ℚ) = -1 ∧
      (float.toField (float.lit 74 1) : ℚ) = 15518925 / 2097152 ∧
      (float.lit 74 1).bits = 1089260749 ∧
      float.ofBits 1089260749 = float.lit 74 1 := by
  refine ⟨?_, ?_, ?_, ?_, by decide, by decide⟩
  · rw [float.toField_of_numerator _ 20000 (by decide) (by decide)]
    norm_num
  · have h : (float.lit 5 1).numerator150 = 2 ^ 149 := by decide
    simp only [float.toField, h, show (float.lit 5 1).sign = false from rfl]
    norm_num
  · have h : (float.lit (-10) 1).numerator150 = 2 ^ 150 := by decide
    simp only [float.toField, h, show (float.lit (-10) 1).sign = true from rfl]
    norm_num
  · have h : (float.lit 74 1).numerator150 = 15518925 * 2 ^ 129 := by decide
    simp only [float.toField, h, show (float.lit 74 1).sign = false from rfl]
    norm_num

/-- The name search on the table of the image: a registered name, a proper prefix, an
extension, the empty name, the longest registered name and a name of 28 characters. -/
theorem find_param_index_by_name_checks :
    _find_param_index_by_name (cstr "motor_kv") flash_params NUM_PARAMS = 6 ∧
      _find_param_index_by_name (cstr "motor_k") flash_params NUM_PARAMS = NUM_PARAMS ∧
      _find_param_index_by_name (cstr "motor_kvx") flash_params NUM_PARAMS = NUM_PARAMS ∧
      _find_param_index_by_name (cstr "") flash_params NUM_PARAMS = NUM_PARAMS ∧
      _find_param_index_by_name (cstr "uavcan_escstatus_interval") flash_params NUM_PARAMS = 11 ∧
      _find_param_index_by_name (cstr "uavcan_escstatus_interval_xx") flash_params NUM_PARAMS =
        NUM_PARAMS := by
  decide

/-! ## The claims -/

/-- C1. Bounds invariant: starting from a freshly constructed store, after every
finite sequence of calls of `set_param_value_by_index` and `set_param_value_by_name`,
with arbitrary indices, names and values, the table still has its 22 records and
every one of them satisfies `min_value <= value` and `value <= max_value`. -/
theorem C1_bounds_invariant (calls : List set_call) :
    (Configuration.fresh.run calls).params_.length = 22 ∧
      ∀ p ∈ (Configuration.fresh.run calls).params_,
        float.le p.min_value p.value = true ∧ float.le p.value p.max_value = true := by
  refine ⟨(Configuration.fresh.run calls).size_ok, ?_⟩
  have h := Configuration.run_induction (fun c => ∀ p ∈ c.params_, p.in_bounds = true)
    (fun c index value hc => c.set_by_index_in_bounds index value hc) calls
    Configuration.fresh (by decide)
  intro p hp
  have := h p hp
  simpa [param_t.in_bounds] using this

/-- C2. Rejection is a no-op: in every store, for every index below `NUM_PARAMS` and
every value `v` with `v < min_value` or `v > max_value` for the record at that
index, `set_param_value_by_index` returns false and leaves the whole table as it
was. -/
theorem C2_rejection_is_noop (c : Configuration) (index : Nat) (value : float) (r : param_t)
    (_hidx : index < NUM_PARAMS) (hr : c.params_[index]? = some r)
    (hout : float.lt value r.min_value = true ∨ float.gt value r.max_value = true) :
    c.set_param_value_by_index index value = (false, c) := by
  rw [c.set_by_index_of_getElem? value hr]
  rcases hout with h | h
  · simp [float.le_eq_false_of_lt h]
  · simp [@float.le_eq_false_of_lt r.max_value value h]

/-- C2, at a concrete input: 9000 for `motor_kv`, whose maximum is 5000, in the
fresh store. -/
theorem C2_rejection_is_noop_witness :
    Configuration.fresh.set_param_value_by_index PARAM_MOTOR_KV (float.lit 90000 1) =
      (false, Configuration.fresh) :=
  C2_rejection_is_noop Configuration.fresh PARAM_MOTOR_KV (float.lit 90000 1)
    (param_t.init PARAM_MOTOR_KV "motor_kv"
      (float.lit 8500 1) (float.lit 8500 1) (float.lit 1000 1) (float.lit 50000 1))
    (by decide) (by decide) (by decide)

/-- C3. Acceptance is exact: in every store, for the record `r` at an index below
`NUM_PARAMS` and every value `v`, `set_param_value_by_index` returns true if and only
if `min_value <= v` and `v <= max_value`; and when it returns true, a following
`get_param_by_index` at that index returns true with the record `r` in which the
value is `v`, bit for bit. -/
theorem C3_acceptance_is_exact (c : Configuration) (index : Nat) (value : float) (r : param_t)
    (out_param : param_t) (hr : c.params_[index]? = some r) :
    ((c.set_param_value_by_index index value).1 = true ↔
        (float.le r.min_value value = true ∧ float.le value r.max_value = true)) ∧
      ((c.set_param_value_by_index index value).1 = true →
        (c.set_param_value_by_index index value).2.get_param_by_index out_param index =
          (true, { r with value := value }, (c.set_param_value_by_index index value).2)) := by
  rw [c.set_by_index_of_getElem? value hr]
  by_cases hb : (float.le r.min_value value && float.le value r.max_value) = true
  · have hb2 := Bool.and_eq_true_iff.mp hb
    simp only [hb, if_true, true_iff, forall_const]
    refine ⟨hb2, ?_⟩
    apply Configuration.get_by_index_of_getElem?
    rw [Configuration.assign_value_getElem?]
    simp [hr]
  · have hb3 : ¬ (float.le r.min_value value = true ∧ float.le value r.max_value = true) := by
      intro h; exact hb (Bool.and_eq_true_iff.mpr h)
    simp [hb, hb3]

/-- C3, at a concrete input: 900 for `motor_kv` in the fresh store. -/
theorem C3_acceptance_is_exact_witness :
    ((Configuration.fresh.set_param_value_by_index PARAM_MOTOR_KV (float.lit 9000 1)).1 = true ↔
        (float.le (float.lit 1000 1) (float.lit 9000 1) = true ∧
          float.le (float.lit 9000 1) (float.lit 50000 1) = true)) ∧
      ((Configuration.fresh.set_param_value_by_index PARAM_MOTOR_KV (float.lit 9000 1)).1 = true →
        (Configuration.fresh.set_param_value_by_index PARAM_MOTOR_KV
            (float.lit 9000 1)).2.get_param_by_index
            (param_t.init 0 "" (float.lit 0 1) (float.lit 0 1) (float.lit 0 1) (float.lit 0 1))
            PARAM_MOTOR_KV =
          (true,
            param_t.init PARAM_MOTOR_KV "motor_kv"
              (float.lit 9000 1) (float.lit 8500 1) (float.lit 1000 1) (float.lit 50000 1),
            (Configuration.fresh.set_param_value_by_index PARAM_MOTOR_KV
              (float.lit 9000 1)).2)) :=
  C3_acceptance_is_exact Configuration.fresh PARAM_MOTOR_KV (float.lit 9000 1)
    (param_t.init PARAM_MOTOR_KV "motor_kv"
      (float.lit 8500 1) (float.lit 8500 1) (float.lit 1000 1) (float.lit 50000 1))
    (param_t.init 0 "" (float.lit 0 1) (float.lit 0 1) (float.lit 0 1) (float.lit 0 1))
    (by decide)

/-- C4. Frame of a set: in every store, a call of `set_param_value_by_index` or of
`set_param_value_by_name`, whatever it returns, leaves the index, name,
default_value, min_value and max_value of every record as they were, and leaves
every record other than the addressed one (for a name: the one the search stops at)
as it was, its value included. -/
theorem C4_frame_of_set (c : Configuration) (index : Nat) (name : List Nat) (value : float) :
    ((c.set_param_value_by_index index value).2.params_.map (fun p => p.index) =
        c.params_.map (fun p => p.index) ∧
      (c.set_param_value_by_index index value).2.params_.map (fun p => p.name) =
        c.params_.map (fun p => p.name) ∧
      (c.set_param_value_by_index index value).2.params_.map (fun p => p.default_value) =
        c.params_.map (fun p => p.default_value) ∧
      (c.set_param_value_by_index index value).2.params_.map (fun p => p.min_value) =
        c.params_.map (fun p => p.min_value) ∧
      (c.set_param_value_by_index index value).2.params_.map (fun p => p.max_value) =
        c.params_.map (fun p => p.max_value) ∧
      ∀ j, j ≠ index →
        (c.set_param_value_by_index index value).2.params_[j]? = c.params_[j]?) ∧
    ((c.set_param_value_by_name name value).2.params_.map (fun p => p.index) =
        c.params_.map (fun p => p.index) ∧
      (c.set_param_value_by_name name value).2.params_.map (fun p => p.name) =
        c.params_.map (fun p => p.name) ∧
      (c.set_param_value_by_name name value).2.params_.map (fun p => p.default_value) =
        c.params_.map (fun p => p.default_value) ∧
      (c.set_param_value_by_name name value).2.params_.map (fun p => p.min_value) =
        c.params_.map (fun p => p.min_value) ∧
      (c.set_param_value_by_name name value).2.params_.map (fun p => p.max_value) =
        c.params_.map (fun p => p.max_value) ∧
      ∀ j, j ≠ _find_param_index_by_name name c.params_ NUM_PARAMS →
        (c.set_param_value_by_name name value).2.params_[j]? = c.params_[j]?) := by
  have key : ∀ i : Nat,
      (c.set_param_value_by_index i value).2.params_.map (fun p => p.index) =
        c.params_.map (fun p => p.index) ∧
      (c.set_param_value_by_index i value).2.params_.map (fun p => p.name) =
        c.params_.map (fun p => p.name) ∧
      (c.set_param_value_by_index i value).2.params_.map (fun p => p.default_value) =
        c.params_.map (fun p => p.default_value) ∧
      (c.set_param_value_by_index i value).2.params_.map (fun p => p.min_value) =
        c.params_.map (fun p => p.min_value) ∧
      (c.set_param_value_by_index i value).2.params_.map (fun p => p.max_value) =
        c.params_.map (fun p => p.max_value) := by
    intro i
    have hf := c.set_by_index_fixed i value
    exact ⟨map_eq_of_fixed_eq (fun t => t.1) hf, map_eq_of_fixed_eq (fun t => t.2.1) hf,
      map_eq_of_fixed_eq (fun t => t.2.2.1) hf, map_eq_of_fixed_eq (fun t => t.2.2.2.1) hf,
      map_eq_of_fixed_eq (fun t => t.2.2.2.2) hf⟩
  refine ⟨⟨(key index).1, (key index).2.1, (key index).2.2.1, (key index).2.2.2.1,
    (key index).2.2.2.2, fun j hj => c.set_by_index_others index value j hj⟩, ?_⟩
  rw [c.set_by_name_eq, find_param_index_by_name_eq]
  rw [find_by_string_mod]
  exact ⟨(key _).1, (key _).2.1, (key _).2.2.1, (key _).2.2.2.1, (key _).2.2.2.2,
    fun j hj => c.set_by_index_others _ value j hj⟩

/-- C5. Index/name agreement: in every store reached from a fresh one by setter
calls, for the record `r` at position `i`, `get_param_by_name` with the name of `r`
(any pointer to that string) returns true with `r`, whose index is `r.index`, and
`get_param_by_index` with `r.index` returns true with `r`, whose name is `r.name`.
Behind this: the index field of `r` is its position, its name has between 1 and 26
characters, and no record at another position has the same name. -/
theorem C5_index_name_agreement (calls : List set_call) (i : Nat) (r out_param : param_t)
    (name : List Nat) (hr : (Configuration.fresh.run calls).params_[i]? = some r)
    (hname : c_string name = c_string r.name) :
    (Configuration.fresh.run calls).get_param_by_name out_param name =
        (true, r, Configuration.fresh.run calls) ∧
      (Configuration.fresh.run calls).get_param_by_name out_param r.name =
        (true, r, Configuration.fresh.run calls) ∧
      (Configuration.fresh.run calls).get_param_by_index out_param r.index =
        (true, r, Configuration.fresh.run calls) ∧
      r.index = i ∧
      1 ≤ (c_string r.name).length ∧ (c_string r.name).length ≤ 26 ∧
      ∀ j rj, (Configuration.fresh.run calls).params_[j]? = some rj →
        c_string rj.name = c_string r.name → j = i := by
  obtain ⟨f, hf, hfi, hfn⟩ := Configuration.run_record hr
  obtain ⟨h1, h2, h3, h4⟩ := flash_params_record hf
  have hfind : ∀ q, c_string q = c_string r.name →
      find_by_string q (Configuration.fresh.run calls).params_ NUM_PARAMS = i := by
    intro q hq
    have hq2 : c_string q = c_string f.name := by rw [hfn]; exact hq
    rw [Configuration.run_find, find_by_string_congr_name flash_params NUM_PARAMS hq2, h4]
  have hget : ∀ q, c_string q = c_string r.name →
      (Configuration.fresh.run calls).get_param_by_name out_param q =
        (true, r, Configuration.fresh.run calls) := by
    intro q hq
    rw [Configuration.get_by_name_eq, find_by_string_mod, hfind q hq]
    exact Configuration.get_by_index_of_getElem? _ out_param hr
  have hidx : r.index = i := by rw [← hfi]; exact h1
  refine ⟨hget name hname, hget r.name rfl, ?_, hidx, by rw [← hfn]; exact h2,
    by rw [← hfn]; exact h3, ?_⟩
  · rw [hidx]
    exact Configuration.get_by_index_of_getElem? _ out_param hr
  · intro j rj hrj hc
    have hj := hfind rj.name hc
    obtain ⟨fj, hfj, _, hfjn⟩ := Configuration.run_record hrj
    have h4j := (flash_params_record hfj).2.2.2
    rw [Configuration.run_find, ← hfjn, h4j] at hj
    exact hj

/-- C5, at a concrete input: after 900 has been written to `motor_kv`, the name
`"motor_kv"` and the index 6 both lead to the record at position 6. -/
theorem C5_index_name_agreement_witness :
    (Configuration.fresh.run [set_call.by_index 6 (float.lit 9000 1)]).get_param_by_name
        (param_t.init 0 "" (float.lit 0 1) (float.lit 0 1) (float.lit 0 1) (float.lit 0 1))
        (cstr "motor_kv") =
      (true,
        param_t.init PARAM_MOTOR_KV "motor_kv"
          (float.lit 9000 1) (float.lit 8500 1) (float.lit 1000 1) (float.lit 50000 1),
        Configuration.fresh.run [set_call.by_index 6 (float.lit 9000 1)]) :=
  (C5_index_name_agreement [set_call.by_index 6 (float.lit 9000 1)] 6
    (param_t.init PARAM_MOTOR_KV "motor_kv"
      (float.lit 9000 1) (float.lit 8500 1) (float.lit 1000 1) (float.lit 50000 1))
    (param_t.init 0 "" (float.lit 0 1) (float.lit 0 1) (float.lit 0 1) (float.lit 0 1))
    (cstr "motor_kv") (by decide) (by decide)).1

/-- C6. `get_param_by_index` returns true if and only if the index is below
`NUM_PARAMS`; when it does, the record left in `out_param` is the record stored at
that index; when it returns false, as for the indices `NUM_PARAMS` and 255,
`out_param` is as it was before the call; the table is unchanged in every case. -/
theorem C6_get_param_by_index (c : Configuration) (out_param : param_t) (index : Nat) :
    ((c.get_param_by_index out_param index).1 = true ↔ index < NUM_PARAMS) ∧
      (index < NUM_PARAMS →
        ∃ r, c.params_[index]? = some r ∧ c.get_param_by_index out_param index = (true, r, c)) ∧
      (NUM_PARAMS ≤ index → c.get_param_by_index out_param index = (false, out_param, c)) ∧
      c.get_param_by_index out_param NUM_PARAMS = (false, out_param, c) ∧
      c.get_param_by_index out_param 255 = (false, out_param, c) := by
  have hlt : index < NUM_PARAMS →
      ∃ r, c.params_[index]? = some r ∧
        c.get_param_by_index out_param index = (true, r, c) := by
    intro h
    obtain ⟨r, hr⟩ := c.exists_record h
    exact ⟨r, hr, c.get_by_index_of_getElem? out_param hr⟩
  refine ⟨?_, hlt, fun h => c.get_by_index_of_ge out_param h,
    c.get_by_index_of_ge out_param (Nat.le_refl _), c.get_by_index_of_ge out_param (by decide)⟩
  by_cases h : index < NUM_PARAMS
  · obtain ⟨r, _, hg⟩ := hlt h
    simp [hg, h]
  · rw [c.get_by_index_of_ge out_param (Nat.le_of_not_lt h)]
    simp [h]

/-- C7. Unknown names fail cleanly: in every store reached from a fresh one by
setter calls, for the empty name and for every name whose string is the string of
none of the 22 registered names, the search returns the sentinel `NUM_PARAMS`, the
sentinel survives the cast to `uint8_t`, and `get_param_by_name` returns false,
leaves `out_param` as it was and leaves the table as it was. -/
theorem C7_unknown_names_fail (calls : List set_call) (out_param : param_t) (name : List Nat)
    (hname : c_string name = [] ∨ ∀ p ∈ flash_params, c_string name ≠ c_string p.name) :
    _find_param_index_by_name name (Configuration.fresh.run calls).params_ NUM_PARAMS =
        NUM_PARAMS ∧
      NUM_PARAMS % 256 = NUM_PARAMS ∧
      (Configuration.fresh.run calls).get_param_by_name out_param name =
        (false, out_param, Configuration.fresh.run calls) := by
  have hfind : find_by_string name (Configuration.fresh.run calls).params_ NUM_PARAMS =
      NUM_PARAMS := by
    rw [Configuration.run_find]
    rcases hname with h | h
    · exact find_by_string_of_empty name flash_params NUM_PARAMS h
    · exact find_by_string_of_unregistered NUM_PARAMS h
  refine ⟨by rw [find_param_index_by_name_eq]; exact hfind, rfl, ?_⟩
  rw [Configuration.get_by_name_eq, hfind]
  exact Configuration.get_by_index_of_ge _ out_param (by decide)

/-- C7, at a concrete input: `"motor_k"`, a proper prefix of a registered name,
after 900 has been written to `motor_kv`. -/
theorem C7_unknown_names_fail_witness :
    (Configuration.fresh.run [set_call.by_index 6 (float.lit 9000 1)]).get_param_by_name
        (param_t.init 0 "" (float.lit 0 1) (float.lit 0 1) (float.lit 0 1) (float.lit 0 1))
        (cstr "motor_k") =
      (false,
        param_t.init 0 "" (float.lit 0 1) (float.lit 0 1) (float.lit 0 1) (float.lit 0 1),
        Configuration.fresh.run [set_call.by_index 6 (float.lit 9000 1)]) :=
  (C7_unknown_names_fail [set_call.by_index 6 (float.lit 9000 1)]
    (param_t.init 0 "" (float.lit 0 1) (float.lit 0 1) (float.lit 0 1) (float.lit 0 1))
    (cstr "motor_k") (Or.inr (by decide))).2.2

/-- C8. `set_param_value_by_name` agrees with `set_param_value_by_index`: in every
store that holds the 22 registered names (whatever its indices, values and bounds),
for the record at position `i`, every pointer to the string of its name and every
value, `set_param_value_by_name` returns the same boolean and leaves the same table
as `set_param_value_by_index` at `i`; and for the empty name and every name that is
the string of no registered name it returns false and leaves the table as it was. -/
theorem C8_set_by_name_agrees (c : Configuration) (name : List Nat) (value : float)
    (hnames : c.params_.map (fun p => p.name) = flash_params.map (fun p => p.name)) :
    (∀ i r, c.params_[i]? = some r → c_string name = c_string r.name →
        c.set_param_value_by_name name value = c.set_param_value_by_index i value) ∧
      ((c_string name = [] ∨ ∀ p ∈ flash_params, c_string name ≠ c_string p.name) →
        c.set_param_value_by_name name value = (false, c)) := by
  have hcongr := find_by_string_congr_params name NUM_PARAMS hnames
  constructor
  · intro i r hr hname
    have hi : (c.params_.map (fun p => p.name))[i]? = (flash_params.map (fun p => p.name))[i]? := by
      rw [hnames]
    simp only [List.getElem?_map, hr, Option.map_some'] at hi
    cases hfl : flash_params[i]? with
    | none => simp [hfl] at hi
    | some f =>
      simp only [hfl, Option.map_some', Option.some.injEq] at hi
      have hq : c_string name = c_string f.name := by rw [← hi]; exact hname
      rw [c.set_by_name_eq, find_by_string_mod, hcongr,
        find_by_string_congr_name flash_params NUM_PARAMS hq, (flash_params_record hfl).2.2.2]
  · intro hname
    have hfind : find_by_string name c.params_ NUM_PARAMS = NUM_PARAMS := by
      rw [hcongr]
      rcases hname with h | h
      · exact find_by_string_of_empty name flash_params NUM_PARAMS h
      · exact find_by_string_of_unregistered NUM_PARAMS h
    rw [c.set_by_name_eq, hfind]
    exact c.set_by_index_of_ge value (by decide)

/-- C8, at a concrete input: after 900 has been written to `motor_kv`, writing 850
to `"motor_kv"` is writing 850 at index 6. -/
theorem C8_set_by_name_agrees_witness :
    (Configuration.fresh.run [set_call.by_index 6 (float.lit 9000 1)]).set_param_value_by_name
        (cstr "motor_kv") (float.lit 8500 1) =
      (Configuration.fresh.run [set_call.by_index 6 (float.lit 9000 1)]).set_param_value_by_index
        PARAM_MOTOR_KV (float.lit 8500 1) :=
  (C8_set_by_name_agrees (Configuration.fresh.run [set_call.by_index 6 (float.lit 9000 1)])
    (cstr "motor_kv") (float.lit 8500 1) (by decide)).1
    PARAM_MOTOR_KV
    (param_t.init PARAM_MOTOR_KV "motor_kv"
      (float.lit 9000 1) (float.lit 8500 1) (float.lit 1000 1) (float.lit 50000 1))
    (by decide) (by decide)

/-- C9, as the claim states it, fails: in the fresh store, index 0 is in range and
100 is above the maximum of that record, index 22 is out of range, and the two calls
return the same result, false with the table as it was. -/
theorem C9_counterexample :
    PARAM_MOTOR_NUM_POLES < NUM_PARAMS ∧
      (Configuration.fresh.params_[PARAM_MOTOR_NUM_POLES]?).map
        (fun r => float.gt (float.lit 1000 1) r.max_value) = some true ∧
      ¬ (22 < NUM_PARAMS) ∧
      ¬ (Configuration.fresh.set_param_value_by_index PARAM_MOTOR_NUM_POLES (float.lit 1000 1) ≠
        Configuration.fresh.set_param_value_by_index 22 (float.lit 1000 1)) ∧
      Configuration.fresh.set_param_value_by_index 22 (float.lit 1000 1) =
        (false, Configuration.fresh) := by
  decide

/-- C9, amended. The setters report every failure by the same result: in every
store, `set_param_value_by_index` with an in-range index and a value out of the
bounds of that record, and `set_param_value_by_index` with an out-of-range index,
both return false and leave the table as it was, so that the two results are equal
and carry no cause. -/
theorem C9_failures_are_one_result (c : Configuration) (index : Nat) (r : param_t)
    (value : float) (index2 : Nat) (value2 : float)
    (hr : c.params_[index]? = some r)
    (hout : ¬ (float.le r.min_value value = true ∧ float.le value r.max_value = true))
    (hidx : NUM_PARAMS ≤ index2) :
    c.set_param_value_by_index index value = (false, c) ∧
      c.set_param_value_by_index index2 value2 = (false, c) ∧
      c.set_param_value_by_index index value = c.set_param_value_by_index index2 value2 := by
  have h1 : c.set_param_value_by_index index value = (false, c) := by
    rw [c.set_by_index_of_getElem? value hr]
    have : ¬ ((float.le r.min_value value && float.le value r.max_value) = true) := by
      intro h; exact hout (Bool.and_eq_true_iff.mp h)
    simp [this]
  have h2 := c.set_by_index_of_ge value2 hidx
  exact ⟨h1, h2, h1.trans h2.symm⟩

/-- C9, amended, at a concrete input: a NaN for `motor_num_poles`, and 14 at the
index 255, in the fresh store. -/
theorem C9_failures_are_one_result_witness :
    Configuration.fresh.set_param_value_by_index PARAM_MOTOR_NUM_POLES ⟨false, 255, 1⟩ =
      Configuration.fresh.set_param_value_by_index 255 (float.lit 140 1) :=
  (C9_failures_are_one_result Configuration.fresh PARAM_MOTOR_NUM_POLES
    (param_t.init PARAM_MOTOR_NUM_POLES "motor_num_poles"
      (float.lit 140 1) (float.lit 140 1) (float.lit 40 1) (float.lit 400 1))
    ⟨false, 255, 1⟩ 255 (float.lit 140 1) (by decide) (by decide) (by decide)).2.2

/-- C10, as the claim states it, fails: the record of `motor_current_limit` in
`flash_params`, and so in a fresh store, has the value 1 and the default value 10. -/
theorem C10_counterexample :
    ¬ (∀ p ∈ Configuration.fresh.params_, p.value = p.default_value) ∧
      Configuration.fresh.params_[PARAM_MOTOR_CURRENT_LIMIT]? =
        some (param_t.init PARAM_MOTOR_CURRENT_LIMIT "motor_current_limit"
          (float.lit 10 1) (float.lit 100 1) (float.lit 10 1) (float.lit 400 1)) ∧
      float.lit 10 1 ≠ float.lit 100 1 := by
  decide

/-- C10, amended. A fresh store is a copy of `flash_params`, whose tuples are
(index, name, current value, default value, min, max). The current value is the
default value in every record but three: `motor_current_limit` (value 1, default
10), `motor_voltage_limit` (value 2, default 7.4) and `uavcan_node_id` (value 1,
default 0). -/
theorem C10_factory_seeding :
    Configuration.fresh.params_ = flash_params ∧
      (∀ p ∈ flash_params,
        p.index ≠ PARAM_MOTOR_CURRENT_LIMIT → p.index ≠ PARAM_MOTOR_VOLTAGE_LIMIT →
        p.index ≠ PARAM_UAVCAN_NODE_ID → p.value = p.default_value) ∧
      (flash_params.map (fun p => (p.index, p.value, p.default_value))).filter
          (fun t => decide (t.2.1 ≠ t.2.2)) =
        [ (PARAM_MOTOR_CURRENT_LIMIT, float.lit 10 1, float.lit 100 1),
          (PARAM_MOTOR_VOLTAGE_LIMIT, float.lit 20 1, float.lit 74 1),
          (PARAM_UAVCAN_NODE_ID, float.lit 10 1, float.lit 0 1) ] := by
  decide

/-- C11, as the claim states it, fails: the store reached by writing 15 to
`motor_num_poles` has every value within its bounds, `read_motor_params` casts the
pole count to 15 and divides by `15 >> 1 = 7` pole pairs, and the speed it yields is
not `motor_rpm_max * 60 / (2π * (15/2))`. -/
theorem C11_counterexample :
    (∀ p ∈ (Configuration.fresh.run
        [set_call.by_index PARAM_MOTOR_NUM_POLES (float.lit 150 1)]).params_,
      p.in_bounds = true) ∧
      ∃ mp, (Configuration.fresh.run
          [set_call.by_index PARAM_MOTOR_NUM_POLES (float.lit 150 1)]).read_motor_params
            Real.pi =
          some (mp, Configuration.fresh.run
            [set_call.by_index PARAM_MOTOR_NUM_POLES (float.lit 150 1)]) ∧
        mp.num_poles = 15 ∧
        mp.max_speed_rad_per_s = (20000 : ℝ) * 60 / (2 * Real.pi * 7) ∧
        mp.max_speed_rad_per_s ≠
          rad_per_s_reference Real.pi
            (float.toField ((Configuration.fresh.run
              [set_call.by_index PARAM_MOTOR_NUM_POLES (float.lit 150 1)]).param
                PARAM_MOTOR_RPM_MAX (by decide)).value) mp.num_poles := by
  have hcast : float.to_uint 32 ((Configuration.fresh.run
      [set_call.by_index PARAM_MOTOR_NUM_POLES (float.lit 150 1)]).param
        PARAM_MOTOR_NUM_POLES (by decide)).value = some 15 := by decide
  refine ⟨by decide, _, Configuration.read_motor_params_of_cast Real.pi _ hcast, rfl, ?_, ?_⟩
  all_goals
    have hv : ((Configuration.fresh.run
        [set_call.by_index PARAM_MOTOR_NUM_POLES (float.lit 150 1)]).param
          PARAM_MOTOR_RPM_MAX (by decide)).value = float.lit 200000 1 := by decide
    have hrpm : (float.toField (float.lit 200000 1) : ℝ) = (20000 : Nat) :=
      float.toField_of_numerator _ 20000 (by decide) (by decide)
    have hpi := Real.pi_pos
    have hshift : (15 >>> 1 : Nat) = 7 := rfl
    simp only [hv, hrpm, _rad_per_s_from_rpm, rad_per_s_reference, hshift]
  · norm_num
  · intro h
    field_simp at h
    norm_num at h
    linarith

/-- C11, amended. In every store with the bounds of `flash_params` and every value
within its bounds, `read_motor_params` returns and leaves the table as it was;
`num_poles` is the cast of the stored `motor_num_poles`; `max_current_a`,
`max_voltage_v`, `rs_r` and `ls_h` are the stored values; with arithmetic in a field
of characteristic 0 (the reals, for one), `max_speed_rad_per_s` is
`motor_rpm_max * 60 / (2π * (num_poles >> 1))` and `phi_v_s_per_rad` is
`(1 / motor_kv) * 60 / (2π * (num_poles >> 1))`, with the pole-pair count halved in
the integers; for an even pole count this is the formula with `num_poles/2`. -/
theorem C11_read_motor_params {K : Type} [Field K] [CharZero K] (M_PI : K) (c : Configuration)
    (hfixed : c.params_.map param_t.fixed_part = flash_params.map param_t.fixed_part)
    (hb : ∀ p ∈ c.params_, p.in_bounds = true) :
    ∃ mp, c.read_motor_params M_PI = some (mp, c) ∧
      float.to_uint 32 (c.param PARAM_MOTOR_NUM_POLES (by decide)).value = some mp.num_poles ∧
      mp.max_current_a = (c.param PARAM_MOTOR_CURRENT_LIMIT (by decide)).value ∧
      mp.max_voltage_v = (c.param PARAM_MOTOR_VOLTAGE_LIMIT (by decide)).value ∧
      mp.rs_r = (c.param PARAM_MOTOR_RS (by decide)).value ∧
      mp.ls_h = (c.param PARAM_MOTOR_LS (by decide)).value ∧
      mp.max_speed_rad_per_s =
        float.toField (c.param PARAM_MOTOR_RPM_MAX (by decide)).value * (60 : K) /
          ((2 : K) * M_PI * (Nat.cast (mp.num_poles / 2) : K)) ∧
      mp.phi_v_s_per_rad =
        (1 / float.toField (c.param PARAM_MOTOR_KV (by decide)).value) * (60 : K) /
          ((2 : K) * M_PI * (Nat.cast (mp.num_poles / 2) : K)) ∧
      (mp.num_poles % 2 = 0 →
        mp.max_speed_rad_per_s =
            rad_per_s_reference M_PI
              (float.toField (c.param PARAM_MOTOR_RPM_MAX (by decide)).value) mp.num_poles ∧
          mp.phi_v_s_per_rad =
            rad_per_s_reference M_PI
              (1 / float.toField (c.param PARAM_MOTOR_KV (by decide)).value) mp.num_poles) := by
  have hpoles := c.cast_between hfixed hb PARAM_MOTOR_NUM_POLES
    (by decide) 32 (by decide) (by decide) (by decide) (by decide)
  refine ⟨_, Configuration.read_motor_params_of_cast M_PI c hpoles.1, hpoles.1, rfl, rfl, rfl,
    rfl, ?_, ?_, ?_⟩
  · simp only [_rad_per_s_from_rpm, Nat.shiftRight_eq_div_pow, pow_one]
  · simp only [_rad_per_s_from_rpm, Nat.shiftRight_eq_div_pow, pow_one]
  · intro heven
    exact ⟨rad_per_s_from_rpm_of_even M_PI _ _ heven, rad_per_s_from_rpm_of_even M_PI _ _ heven⟩

/-- C11, amended, at a concrete input: the store reached by writing 15 to
`motor_num_poles`, over the reals; the reader returns with 15 poles. -/
theorem C11_read_motor_params_witness :
    ∃ mp, (Configuration.fresh.run
        [set_call.by_index PARAM_MOTOR_NUM_POLES (float.lit 150 1)]).read_motor_params
          Real.pi =
        some (mp, Configuration.fresh.run
          [set_call.by_index PARAM_MOTOR_NUM_POLES (float.lit 150 1)]) ∧
      float.to_uint 32 ((Configuration.fresh.run
        [set_call.by_index PARAM_MOTOR_NUM_POLES (float.lit 150 1)]).param
          PARAM_MOTOR_NUM_POLES (by decide)).value = some mp.num_poles :=
  (C11_read_motor_params Real.pi
    (Configuration.fresh.run [set_call.by_index PARAM_MOTOR_NUM_POLES (float.lit 150 1)])
    (by decide) (by decide)).imp (fun _ h => ⟨h.1, h.2.1⟩)

/-- C12, as the claim states it, fails: in the fresh store, which holds 14 for
`motor_num_poles` and 20000 for `motor_rpm_max`, `read_motor_params` yields
`20000 * 60 / (2π * 7)` over the reals, and that quantity is not within 0.1 of
27269.9. -/
theorem C12_counterexample :
    (Configuration.fresh.param PARAM_MOTOR_NUM_POLES (by decide)).value = float.lit 140 1 ∧
      (Configuration.fresh.param PARAM_MOTOR_RPM_MAX (by decide)).value = float.lit 200000 1 ∧
      ∃ mp, Configuration.fresh.read_motor_params Real.pi = some (mp, Configuration.fresh) ∧
        mp.max_speed_rad_per_s = (20000 : ℝ) * 60 / (2 * Real.pi * 7) ∧
        ¬ (|mp.max_speed_rad_per_s - 27269.9| ≤ 0.1) := by
  have hcast : float.to_uint 32
      (Configuration.fresh.param PARAM_MOTOR_NUM_POLES (by decide)).value = some 14 := by decide
  refine ⟨by decide, by decide, _,
    Configuration.read_motor_params_of_cast Real.pi _ hcast, ?_, ?_⟩
  all_goals
    have hv : (Configuration.fresh.param PARAM_MOTOR_RPM_MAX (by decide)).value =
        float.lit 200000 1 := by decide
    have hrpm : (float.toField (float.lit 200000 1) : ℝ) = (20000 : Nat) :=
      float.toField_of_numerator _ 20000 (by decide) (by decide)
    have hshift : (14 >>> 1 : Nat) = 7 := rfl
    simp only [hv, hrpm, _rad_per_s_from_rpm, hshift]
  · norm_num
  · have hb := rad_per_s_example_bounds
    rw [abs_le]
    intro h
    norm_num at h hb
    linarith [h.2, hb.1]

/-- C12, amended. With `motor_num_poles = 14` and `motor_rpm_max = 20000`, the
factory values, `read_motor_params` yields
`max_speed_rad_per_s = 20000 * 60 / (2π * 7)` over the reals, and that quantity is
within 0.1 of 27283.7. -/
theorem C12_unit_conversion_example (c : Configuration)
    (hpoles : (c.param PARAM_MOTOR_NUM_POLES (by decide)).value = float.lit 140 1)
    (hrpm : (c.param PARAM_MOTOR_RPM_MAX (by decide)).value = float.lit 200000 1) :
    ∃ mp, c.read_motor_params Real.pi = some (mp, c) ∧
      mp.max_speed_rad_per_s = (20000 : ℝ) * 60 / (2 * Real.pi * 7) ∧
      |mp.max_speed_rad_per_s - 27283.7| ≤ 0.1 := by
  have hcast : float.to_uint 32 (c.param PARAM_MOTOR_NUM_POLES (by decide)).value = some 14 := by
    rw [hpoles]; decide
  have hval : (float.toField (float.lit 200000 1) : ℝ) = (20000 : Nat) :=
    float.toField_of_numerator _ 20000 (by decide) (by decide)
  have hshift : (14 >>> 1 : Nat) = 7 := rfl
  have heq : _rad_per_s_from_rpm Real.pi
      (float.toField (c.param PARAM_MOTOR_RPM_MAX (by decide)).value) 14 =
      (20000 : ℝ) * 60 / (2 * Real.pi * 7) := by
    simp only [hrpm, hval, _rad_per_s_from_rpm, hshift]
    norm_num
  refine ⟨_, Configuration.read_motor_params_of_cast Real.pi c hcast, heq, ?_⟩
  simp only [heq]
  have hb := rad_per_s_example_bounds
  rw [abs_le]
  constructor <;> norm_num <;> linarith [hb.1, hb.2]

/-- C12, amended, at a concrete input: the fresh store. -/
theorem C12_unit_conversion_example_witness :
    ∃ mp, Configuration.fresh.read_motor_params Real.pi = some (mp, Configuration.fresh) ∧
      mp.max_speed_rad_per_s = (20000 : ℝ) * 60 / (2 * Real.pi * 7) ∧
      |mp.max_speed_rad_per_s - 27283.7| ≤ 0.1 :=
  C12_unit_conversion_example Configuration.fresh (by decide) (by decide)

/-- C14. PWM mode threshold: in every store, `read_pwm_params` returns, leaves the
table as it was, and sets `use_speed_controller` to true if and only if the stored
`pwm_control_mode` is greater than `0.0f`, whatever the other fields of the table
hold; a stored 0.0 gives false and a stored 1.0 gives true. -/
theorem C14_pwm_mode_threshold (c : Configuration) :
    c.read_pwm_params.2 = c ∧
      (c.read_pwm_params.1.use_speed_controller = true ↔
        float.gt (c.param PARAM_PWM_CONTROL_MODE (by decide)).value (float.lit 0 1) = true) ∧
      ((c.param PARAM_PWM_CONTROL_MODE (by decide)).value = float.lit 0 1 →
        c.read_pwm_params.1.use_speed_controller = false) ∧
      ((c.param PARAM_PWM_CONTROL_MODE (by decide)).value = float.lit 10 1 →
        c.read_pwm_params.1.use_speed_controller = true) := by
  refine ⟨rfl, Iff.rfl, ?_, ?_⟩
  · intro h
    simp only [Configuration.read_pwm_params, h]
    decide
  · intro h
    simp only [Configuration.read_pwm_params, h]
    decide

/-- C14, at a concrete input: a table that holds 0.0 for `pwm_control_mode`, and 70000
for `pwm_throttle_min`, whose cast to `uint16_t` is undefined, is read with the flag
false. -/
theorem C14_pwm_mode_threshold_witness :
    (Configuration.fresh.assign_value PARAM_PWM_THROTTLE_MIN
        (float.lit 700000 1)).read_pwm_params.1.use_speed_controller = false ∧
      (Configuration.fresh.assign_value PARAM_PWM_THROTTLE_MIN
        (float.lit 700000 1)).read_pwm_params.1.throttle_pulse_min_us = none :=
  ⟨(C14_pwm_mode_threshold
      (Configuration.fresh.assign_value PARAM_PWM_THROTTLE_MIN
        (float.lit 700000 1))).2.2.1 (by decide),
    by decide⟩

/-- C15, the code at the two documented modes: with `pwm_control_mode` 0, as in the
fresh store, `read_pwm_params` reports `use_speed_controller` false, and with
`pwm_control_mode` 1 it reports true, the reverse of what the comment on the table
entry says each mode does. -/
theorem C15_code_at_documented_modes :
    (Configuration.fresh.param PARAM_PWM_CONTROL_MODE (by decide)).value = float.lit 0 1 ∧
      Configuration.fresh.read_pwm_params.1.use_speed_controller = false ∧
      (Configuration.fresh.set_param_value_by_index PARAM_PWM_CONTROL_MODE (float.lit 10 1)).1 =
        true ∧
      (((Configuration.fresh.set_param_value_by_index PARAM_PWM_CONTROL_MODE
          (float.lit 10 1)).2.param PARAM_PWM_CONTROL_MODE (by decide)).value =
        float.lit 10 1) ∧
      (Configuration.fresh.set_param_value_by_index PARAM_PWM_CONTROL_MODE
          (float.lit 10 1)).2.read_pwm_params.1.use_speed_controller = true := by
  decide

/-- C16. Persistence ordering: against a storage collaborator that records its calls,
one `write_params()` on any store adds to the trace exactly the four calls
`protect(false)`, `erase(flash_params, 2048)`,
`write(flash_params, sizeof(params_), bytes of params_)`, `protect(true)`, in that
order, and leaves the working table as it was; `sizeof(params_)` is the number of
bytes of the table, 968, a multiple of 4. -/
theorem C16_persistence_ordering (c : Configuration) (trace : List hal_call) :
    c.write_params recording_hal trace =
        (trace ++
          [hal_call.protect false, hal_call.erase flash_params_addr 2048,
            hal_call.write flash_params_addr sizeof_params_ c.bytes, hal_call.protect true],
          c) ∧
      c.write_params recording_hal [] =
        ([hal_call.protect false, hal_call.erase flash_params_addr 2048,
            hal_call.write flash_params_addr sizeof_params_ c.bytes, hal_call.protect true],
          c) ∧
      c.bytes.length = sizeof_params_ ∧ sizeof_params_ = 968 ∧ sizeof_params_ % 4 = 0 := by
  have htake : c.bytes.take sizeof_params_ = c.bytes :=
    List.take_of_length_le (Nat.le_of_eq c.bytes_length_table)
  refine ⟨?_, ?_, c.bytes_length_table, rfl, rfl⟩
  · simp only [Configuration.write_params, recording_hal, htake, List.append_assoc,
      List.singleton_append, List.cons_append, List.nil_append]
  · simp only [Configuration.write_params, recording_hal, htake, List.nil_append,
      List.singleton_append, List.cons_append]

/-- C17. Round-trip persistence: with the storage modelled as a protected region of
at least 2048 bytes on which erase and write take effect, for every store reached
from a fresh one by setter calls, `write_params()` followed by the construction of a
new `Configuration` from the region gives back the same table, hence the same
(index, name, value, min, max, default) tuple for every record; the working table
is left as it was and the region is protected again. -/
theorem C17_round_trip_persistence (calls : List set_call) (s : flash_t)
    (hregion : 2048 ≤ s.mem.length) :
    Configuration.load ((Configuration.fresh.run calls).write_params flash_hal s).1.mem =
        Configuration.fresh.run calls ∧
      (Configuration.load
          ((Configuration.fresh.run calls).write_params flash_hal s).1.mem).params_.map
          (fun p => (p.index, p.name, p.value, p.min_value, p.max_value, p.default_value)) =
        (Configuration.fresh.run calls).params_.map
          (fun p => (p.index, p.name, p.value, p.min_value, p.max_value, p.default_value)) ∧
      ((Configuration.fresh.run calls).write_params flash_hal s).2 =
        Configuration.fresh.run calls ∧
      ((Configuration.fresh.run calls).write_params flash_hal s).1.protect = true := by
  have hload := (Configuration.fresh.run calls).load_write_params s hregion
    (Configuration.run_fit calls)
  refine ⟨hload, by rw [hload], ?_, ?_⟩
  · rw [Configuration.write_params_flash _ s hregion]
  · rw [Configuration.write_params_flash _ s hregion]

/-- C17, at a concrete input: 900 is written to `motor_kv`, the table is persisted
over the region of the image as built, and a store constructed from the region holds
the same table. -/
theorem C17_round_trip_persistence_witness :
    Configuration.load
        ((Configuration.fresh.run [set_call.by_index PARAM_MOTOR_KV
          (float.lit 9000 1)]).write_params flash_hal flash_image).1.mem =
      Configuration.fresh.run [set_call.by_index PARAM_MOTOR_KV (float.lit 9000 1)] :=
  (C17_round_trip_persistence [set_call.by_index PARAM_MOTOR_KV (float.lit 9000 1)]
    flash_image (Nat.le_of_eq flash_image_length.symm)).1

/-- C18. Readers never fail: in every store reached from a fresh one by setter
calls, the three readers return, with every field defined, and leave the table as
it was. The cast of
`motor_num_poles` to `uint32_t` is defined and gives a count between 4 and 40, so
that the pole-pair count `num_poles >> 1` is at least 2 and the divisor
`2π * (num_poles >> 1)` is not zero; `motor_kv` is at least 100 and its value is not
zero; the casts of the throttle bounds to `uint16_t` are defined and give 1000 to
2000, that of the deadband gives at most 1000, and the cast of `pwm_control_curve`
to `uint8_t` is defined and gives at most 2. -/
theorem C18_readers_never_fail (calls : List set_call) :
    (∃ mp, (Configuration.fresh.run calls).read_motor_params Real.pi =
          some (mp, Configuration.fresh.run calls) ∧
        float.to_uint 32
          ((Configuration.fresh.run calls).param PARAM_MOTOR_NUM_POLES (by decide)).value =
            some mp.num_poles ∧
        4 ≤ mp.num_poles ∧ mp.num_poles ≤ 40 ∧ 2 ≤ mp.num_poles >>> 1 ∧
        (2 : ℝ) * Real.pi * (Nat.cast (mp.num_poles >>> 1) : ℝ) ≠ 0) ∧
      (float.le (float.lit 1000 1)
          ((Configuration.fresh.run calls).param PARAM_MOTOR_KV (by decide)).value = true ∧
        (100 : ℝ) ≤ float.toField
          ((Configuration.fresh.run calls).param PARAM_MOTOR_KV (by decide)).value) ∧
      (Configuration.fresh.run calls).read_control_params.2 = Configuration.fresh.run calls ∧
      (∃ pp throttle_min throttle_max throttle_deadband code,
        (Configuration.fresh.run calls).read_pwm_params = (pp, Configuration.fresh.run calls) ∧
        float.to_uint 16
          ((Configuration.fresh.run calls).param PARAM_PWM_THROTTLE_MIN (by decide)).value =
            some throttle_min ∧
        pp.throttle_pulse_min_us = some throttle_min ∧
        1000 ≤ throttle_min ∧ throttle_min ≤ 2000 ∧
        float.to_uint 16
          ((Configuration.fresh.run calls).param PARAM_PWM_THROTTLE_MAX (by decide)).value =
            some throttle_max ∧
        pp.throttle_pulse_max_us = some throttle_max ∧
        1000 ≤ throttle_max ∧ throttle_max ≤ 2000 ∧
        float.to_uint 16
          ((Configuration.fresh.run calls).param PARAM_PWM_THROTTLE_DEADBAND (by decide)).value =
            some throttle_deadband ∧
        pp.throttle_deadband_us = some throttle_deadband ∧
        throttle_deadband ≤ 1000 ∧
        float.to_uint 8
          ((Configuration.fresh.run calls).param PARAM_PWM_CONTROL_CURVE (by decide)).value =
            some code ∧
        code ≤ 2 ∧
        pp.control_curve = some (control_curve_of_code code)) := by
  have hfixed := Configuration.run_fixed calls
  have hb := Configuration.run_in_bounds calls
  have hpoles := (Configuration.fresh.run calls).cast_between hfixed hb PARAM_MOTOR_NUM_POLES
    (by decide) 32 (by decide) (by decide) (by decide) (by decide)
  have hmin := (Configuration.fresh.run calls).cast_between hfixed hb PARAM_PWM_THROTTLE_MIN
    (by decide) 16 (by decide) (by decide) (by decide) (by decide)
  have hmax := (Configuration.fresh.run calls).cast_between hfixed hb PARAM_PWM_THROTTLE_MAX
    (by decide) 16 (by decide) (by decide) (by decide) (by decide)
  have hdead := (Configuration.fresh.run calls).cast_between hfixed hb
    PARAM_PWM_THROTTLE_DEADBAND (by decide) 16 (by decide) (by decide) (by decide) (by decide)
  have hcurve := (Configuration.fresh.run calls).cast_between hfixed hb PARAM_PWM_CONTROL_CURVE
    (by decide) 8 (by decide) (by decide) (by decide) (by decide)
  have hkv := ((Configuration.fresh.run calls).value_between hfixed hb PARAM_MOTOR_KV
    (by decide)).1
  have e0lo : (Configuration.fresh.param PARAM_MOTOR_NUM_POLES (by decide)).min_value.trunc = 4 :=
    by decide
  have e0hi : (Configuration.fresh.param PARAM_MOTOR_NUM_POLES (by decide)).max_value.trunc = 40 :=
    by decide
  have e15lo : (Configuration.fresh.param PARAM_PWM_THROTTLE_MIN (by decide)).min_value.trunc =
      1000 := by decide
  have e15hi : (Configuration.fresh.param PARAM_PWM_THROTTLE_MIN (by decide)).max_value.trunc =
      2000 := by decide
  have e16lo : (Configuration.fresh.param PARAM_PWM_THROTTLE_MAX (by decide)).min_value.trunc =
      1000 := by decide
  have e16hi : (Configuration.fresh.param PARAM_PWM_THROTTLE_MAX (by decide)).max_value.trunc =
      2000 := by decide
  have e17hi : (Configuration.fresh.param PARAM_PWM_THROTTLE_DEADBAND
      (by decide)).max_value.trunc = 1000 := by decide
  have e19hi : (Configuration.fresh.param PARAM_PWM_CONTROL_CURVE (by decide)).max_value.trunc =
      2 := by decide
  rw [e0lo, e0hi] at hpoles
  rw [e15lo, e15hi] at hmin
  rw [e16lo, e16hi] at hmax
  rw [e17hi] at hdead
  rw [e19hi] at hcurve
  have hkvmin : (Configuration.fresh.param PARAM_MOTOR_KV (by decide)).min_value =
      float.lit 1000 1 := by decide
  rw [hkvmin] at hkv
  have hcurvefield : (Configuration.fresh.run calls).read_pwm_params.1.control_curve =
      some (control_curve_of_code ((Configuration.fresh.run calls).param
        PARAM_PWM_CONTROL_CURVE (by decide)).value.trunc) := by
    simp only [Configuration.read_pwm_params, hcurve.1, Option.map_some']
  refine ⟨⟨_, Configuration.read_motor_params_of_cast Real.pi _ hpoles.1, hpoles.1,
    hpoles.2.1, hpoles.2.2, ?_, ?_⟩, ⟨hkv, ?_⟩, rfl,
    ⟨(Configuration.fresh.run calls).read_pwm_params.1, _, _, _, _, rfl,
      hmin.1, hmin.1, hmin.2.1, hmin.2.2, hmax.1, hmax.1, hmax.2.1, hmax.2.2,
      hdead.1, hdead.1, hdead.2.2, hcurve.1, hcurve.2.2, hcurvefield⟩⟩
  · simp only [Nat.shiftRight_eq_div_pow]
    have := hpoles.2.1
    omega
  · have hpp : 2 ≤ (((Configuration.fresh.run calls).param PARAM_MOTOR_NUM_POLES
        (by decide)).value.trunc >>> 1) := by
      simp only [Nat.shiftRight_eq_div_pow]
      have := hpoles.2.1
      omega
    have hpos : (0 : ℝ) < ((((Configuration.fresh.run calls).param PARAM_MOTOR_NUM_POLES
        (by decide)).value.trunc >>> 1 : Nat) : ℝ) := by
      exact_mod_cast (by omega : 0 < _)
    have := Real.pi_pos
    positivity
  · obtain ⟨hs, hn⟩ := float.numerator150_of_le (by decide) (by decide) hkv
    have hlit : (float.lit 1000 1).numerator150 = 100 * 2 ^ 150 := by decide
    rw [hlit] at hn
    have hcast : ((100 * 2 ^ 150 : Nat) : ℝ) ≤
        (((Configuration.fresh.run calls).param PARAM_MOTOR_KV
          (by decide)).value.numerator150 : ℝ) := by
      exact_mod_cast hn
    simp only [float.toField, hs, Bool.false_eq_true, if_false]
    rw [le_div_iff₀ (by positivity)]
    calc (100 : ℝ) * 2 ^ 150 = ((100 * 2 ^ 150 : Nat) : ℝ) := by norm_num
      _ ≤ _ := hcast

/-- C19. Reachable PWM curves: in every store reached from a fresh one by setter
calls, the stored `pwm_control_curve` lies between 0.5 and 2.0; its cast to `uint8_t`
is defined and gives 0, 1 or 2, so that `read_pwm_params` returns with the curve of
one of the three `case` arms, never that of the `default` arm; the curve is SQRT exactly when the stored value is at
least 0.5 and below 1; and `set_param_value_by_index(PARAM_PWM_CONTROL_CURVE, 0)`
returns false and leaves the table as it was. -/
theorem C19_reachable_pwm_curves (calls : List set_call) :
    float.le (float.lit 5 1)
        ((Configuration.fresh.run calls).param PARAM_PWM_CONTROL_CURVE (by decide)).value = true ∧
      float.le ((Configuration.fresh.run calls).param PARAM_PWM_CONTROL_CURVE (by decide)).value
        (float.lit 20 1) = true ∧
      (∃ p code,
        float.to_uint 8
          ((Configuration.fresh.run calls).param PARAM_PWM_CONTROL_CURVE (by decide)).value =
            some code ∧
        (code = 0 ∨ code = 1 ∨ code = 2) ∧
        (Configuration.fresh.run calls).read_pwm_params = (p, Configuration.fresh.run calls) ∧
        p.control_curve = some (control_curve_of_code code) ∧
        (p.control_curve = some control_curve_t.SQRT ↔
          (float.le (float.lit 5 1)
              ((Configuration.fresh.run calls).param PARAM_PWM_CONTROL_CURVE
                (by decide)).value = true ∧
            float.lt ((Configuration.fresh.run calls).param PARAM_PWM_CONTROL_CURVE
                (by decide)).value (float.lit 10 1) = true))) ∧
      (Configuration.fresh.run calls).set_param_value_by_index PARAM_PWM_CONTROL_CURVE
        (float.lit 0 1) = (false, Configuration.fresh.run calls) := by
  have hfixed := Configuration.run_fixed calls
  have hb := Configuration.run_in_bounds calls
  have hcurve := (Configuration.fresh.run calls).cast_between hfixed hb PARAM_PWM_CONTROL_CURVE
    (by decide) 8 (by decide) (by decide) (by decide) (by decide)
  have hval := (Configuration.fresh.run calls).value_between hfixed hb PARAM_PWM_CONTROL_CURVE
    (by decide)
  have elo : (Configuration.fresh.param PARAM_PWM_CONTROL_CURVE (by decide)).min_value =
      float.lit 5 1 := by decide
  have ehi : (Configuration.fresh.param PARAM_PWM_CONTROL_CURVE (by decide)).max_value =
      float.lit 20 1 := by decide
  have e19hi : (float.lit 20 1).trunc = 2 := by decide
  rw [elo, ehi] at hval hcurve
  rw [e19hi] at hcurve
  have hcode : ∀ n : Nat, n ≤ 2 → n = 0 ∨ n = 1 ∨ n = 2 := by intro n hn; omega
  have hsqrt : ∀ n : Nat, control_curve_of_code n = control_curve_t.SQRT ↔ n = 0 := by
    intro n
    match n with
    | 0 => simp [control_curve_of_code]
    | 1 => simp [control_curve_of_code]
    | 2 => simp [control_curve_of_code]
    | n + 3 => simp [control_curve_of_code]
  have hfield : (Configuration.fresh.run calls).read_pwm_params.1.control_curve =
      some (control_curve_of_code ((Configuration.fresh.run calls).param
        PARAM_PWM_CONTROL_CURVE (by decide)).value.trunc) := by
    simp only [Configuration.read_pwm_params, hcurve.1, Option.map_some']
  refine ⟨hval.1, hval.2,
    ⟨(Configuration.fresh.run calls).read_pwm_params.1, _, hcurve.1, hcode _ hcurve.2.2, rfl,
      hfield, ?_⟩, ?_⟩
  · rw [hfield, Option.some.injEq, hsqrt, float.trunc_eq_zero_iff hval.1]
    exact ⟨fun h => ⟨hval.1, h⟩, fun h => h.2⟩
  · rw [Configuration.set_by_index_of_getElem? _ _
      ((Configuration.fresh.run calls).param_getElem? PARAM_PWM_CONTROL_CURVE (by decide))]
    have hf := (Configuration.fresh.run calls).param_fixed hfixed PARAM_PWM_CONTROL_CURVE
      (by decide)
    simp only [param_t.fixed_part, Prod.mk.injEq] at hf
    rw [hf.2.2.2.1, elo]
    have : float.le (float.lit 5 1) (float.lit 0 1) = false := by decide
    simp [this]

/-- C20. Name search over an arbitrary table: for every table of `num_params`
records and every name, `_find_param_index_by_name` returns some `r ≤ num_params`;
`r = num_params` when the name is empty or has no NUL among its first 27 bytes; and
when `r < num_params`, the name of record `r` agrees with the query on every byte
up to and including the terminator of the query, while no record at a smaller
position does. -/
theorem C20_name_search (name : List Nat) (params : List param_t) (num_params : Nat)
    (_hlen : params.length = num_params) :
    _find_param_index_by_name name params num_params ≤ num_params ∧
      ((byte_at name 0 = 0 ∨ ∀ i, i < 27 → byte_at name i ≠ 0) →
        _find_param_index_by_name name params num_params = num_params) ∧
      (_find_param_index_by_name name params num_params < num_params →
        ∃ p, params[_find_param_index_by_name name params num_params]? = some p ∧
          (∀ k, k ≤ (c_string name).length → byte_at p.name k = byte_at name k) ∧
          byte_at name (c_string name).length = 0 ∧
          ∀ j pj, j < _find_param_index_by_name name params num_params →
            params[j]? = some pj →
            ¬ (∀ k, k ≤ (c_string name).length → byte_at pj.name k = byte_at name k)) := by
  rw [find_param_index_by_name_eq]
  refine ⟨find_by_string_le name params num_params, ?_, ?_⟩
  · intro h
    rcases h with h | h
    · have h0 := c_string_length_eq_zero_of_byte h
      simp [find_by_string, h0]
    · have h27 := c_string_length_ge_of_bytes h
      simp [find_by_string, h27]
  · intro hlt
    obtain ⟨p, hp, hc⟩ := find_by_string_lt_elim hlt
    refine ⟨p, hp, (bytes_agree_iff p.name name).mpr hc, byte_at_c_string_end name, ?_⟩
    intro j pj hj hpj hagree
    exact find_by_string_lt_min hlt j pj hj hpj ((bytes_agree_iff pj.name name).mp hagree)

/-- C20, at a concrete input: the search for `"motor_kv"` in `flash_params` stops at
position 6, below the 22 records. -/
theorem C20_name_search_witness :
    _find_param_index_by_name (cstr "motor_kv") flash_params 22 ≤ 22 ∧
      _find_param_index_by_name (cstr "motor_kv") flash_params 22 = 6 :=
  ⟨(C20_name_search (cstr "motor_kv") flash_params 22 (by decide)).1, by decide⟩

end VectorControl
